import Mathlib

/-!
Verification of simple-video-player: the audio and video decode pipelines.

A shallow embedding of `pkg/audio/audio.go`, `pkg/video/video.go` and the
`Player` of `cmd/main.go`.

* `float32` is modelled exactly: a finite value is an integer number of units
  of `2^-149` (the smallest subnormal) together with a sign, and the product
  of two values is rounded to nearest, ties to even, to 24 significant bits.
  Every `float32` is such a value; the theorems hold for all of them.
* Go `int` values that are sizes and indices are natural numbers; the array
  views `(*[1 << 30]T)(p)` carry their length bound `2^30`, and a panic is
  the result `none`.
* The codec library is a script of results: what each call answers is part
  of the input. A decode loop is the list of events it performs on its output
  queue; `Cleanup` is a function on the session's pointers and channel flags
  whose `Outcome` says whether the call returns, panics or blocks forever.
-/

namespace SimpleVideoPlayer

set_option autoImplicit false
set_option maxRecDepth 8192
set_option exponentiation.threshold 512

/-! ## float32 -/

/-- A `float32` value: not-a-number, an infinity, or the finite value
`(-1)^neg * k * 2^-149`. -/
inductive F32 where
  | nan : F32
  | inf (neg : Bool) : F32
  | fin (neg : Bool) (k : Nat) : F32
  deriving DecidableEq, Repr

/-- Number of binary digits of `a`, by halving; `fuel` bounds the recursion. -/
def bitLenAux : Nat → Nat → Nat
  | 0, _ => 0
  | fuel + 1, a => if a = 0 then 0 else bitLenAux fuel (a / 2) + 1

/-- Number of binary digits of `a` (0 for 0). -/
def bitLen (a : Nat) : Nat := bitLenAux a a

/-- The quotient `a / 2^d` rounded to nearest, ties to even. -/
def roundHalfEven (a d : Nat) : Nat :=
  let q := a / 2 ^ d
  let r := a % 2 ^ d
  if 2 * r < 2 ^ d then q
  else if 2 * r = 2 ^ d then (if q % 2 = 0 then q else q + 1)
  else q + 1

/-- Rounds the exact magnitude `a * 2^-(149+sh)` to `float32`: at most 24
significant bits are kept and nothing below `2^-149`; a result of `2^128` or
more overflows to infinity. -/
def f32Round (neg : Bool) (a sh : Nat) : F32 :=
  let d := max sh (bitLen a - 24)
  let k := roundHalfEven a d * 2 ^ (d - sh)
  if 2 ^ 24 ≤ k / 2 ^ 253 then F32.inf neg else F32.fin neg k

/-- The `float32` product `a * b`. -/
def F32.mul : F32 → F32 → F32
  | F32.nan, _ => F32.nan
  | _, F32.nan => F32.nan
  | F32.inf s, F32.inf t => F32.inf (xor s t)
  | F32.inf s, F32.fin t k => if k = 0 then F32.nan else F32.inf (xor s t)
  | F32.fin s k, F32.inf t => if k = 0 then F32.nan else F32.inf (xor s t)
  | F32.fin s j, F32.fin t k => f32Round (xor s t) (j * k) 149

/-- The signed number of `2^-149` units of a finite value. -/
def signedUnits (neg : Bool) (k : Nat) : Int :=
  if neg then -(k : Int) else (k : Int)

/-- The comparison `a < b` of two `float32` values; false when either is NaN. -/
def F32.lt : F32 → F32 → Bool
  | F32.nan, _ => false
  | _, F32.nan => false
  | F32.inf s, F32.inf t => s && !t
  | F32.inf s, F32.fin _ _ => s
  | F32.fin _ _, F32.inf t => !t
  | F32.fin s j, F32.fin t k => decide (signedUnits s j < signedUnits t k)

/-- The comparison `a > b`. -/
def F32.gt (a b : F32) : Bool := F32.lt b a

/-- The comparison `a <= b`; false when either is NaN. -/
def F32.le : F32 → F32 → Bool
  | F32.nan, _ => false
  | _, F32.nan => false
  | a, b => !F32.lt b a

/-- The constant `0.75` as a `float32`: `3 * 2^-2`, exact. -/
def c075 : F32 := F32.fin false (3 * 2 ^ 147)

/-- The constant `0.8` as a `float32`: `13421773 * 2^-24`, the nearest
`float32` to 4/5. -/
def c08 : F32 := F32.fin false (13421773 * 2 ^ 125)

/-- The constant `-0.8` as a `float32`. -/
def cNeg08 : F32 := F32.fin true (13421773 * 2 ^ 125)

/-- The constant `32767.0` as a `float32`, exact. -/
def c32767 : F32 := F32.fin false (32767 * 2 ^ 149)

/-! ## pkg/audio: sample processing -/

/-- Method `AudioDecoder.processAudioSample`: gain 0.75, then clip at ±0.8. -/
def processAudioSample (sample : F32) : F32 :=
  let sample := F32.mul sample c075
  if F32.gt sample c08 then c08
  else if F32.lt sample cNeg08 then cNeg08
  else sample

/-- Clipping to `[lo, hi]` in the specification's words: `hi` if `x > hi`,
`lo` if `x < lo`, otherwise `x`. -/
def clipTo (lo hi x : F32) : F32 :=
  if F32.gt x hi then hi else if F32.lt x lo then lo else x

/-- The truncation toward zero of a finite value, as a mathematical integer;
undefined for NaN and the infinities. -/
def truncTowardZero : F32 → Option Int
  | F32.fin neg k => some (signedUnits neg (k / 2 ^ 149))
  | _ => none

/-- The Go conversion `int16(x)` of a `float32`: the fraction is discarded
when the truncated value fits in 16 bits; otherwise the result is
implementation-dependent, given here by `undef` wrapped to 16 bits. -/
def int16OfF32 (undef : F32 → Int) (x : F32) : Int :=
  match truncTowardZero x with
  | some t => if -32768 ≤ t ∧ t ≤ 32767 then t else (undef x + 32768) % 65536 - 32768
  | none => (undef x + 32768) % 65536 - 32768

/-- The conversion `byte(v)` of a signed integer: its low eight bits. -/
def byteOf (v : Int) : Nat := (v % 256).toNat

/-- The 16-bit value computed for one raw sample:
`int16(processAudioSample(sample) * 32767.0)`. -/
def pcmOf (undef : F32 → Int) (sample : F32) : Int :=
  int16OfF32 undef (F32.mul (processAudioSample sample) c32767)

/-- The byte offset `idx := i*4 + ch*2` of sample `i` of channel `ch`. -/
def sampleIdx (i ch : Nat) : Nat := i * 4 + ch * 2

/-- Indexing through an array view `(*[1 << 30]T)(p)`: an index of `2^30` or
more panics, and nothing can be read past the end of the memory behind `p`. -/
def readView {α : Type} (xs : List α) (i : Nat) : Option α :=
  if i < 2 ^ 30 then xs[i]? else none

/-- A bounds-checked store `buf[i] = b` into a slice; `none` is the
index-out-of-range panic. -/
def writeAt {α : Type} (buf : List α) (i : Nat) (b : α) : Option (List α) :=
  if i < buf.length then some (buf.set i b) else none

/-- A counted loop `for i := 0; i < n; i++ { s = body(i, s) }` whose body may
panic. -/
def forRange {σ : Type} (n : Nat) (body : Nat → σ → Option σ) (s : σ) : Option σ :=
  (List.range n).foldlM (fun acc i => body i acc) s

/-- The decoded audio unit as `ProcessAudioFrame` reads it: the sample count
and the planes `data[ch]`, each viewed as `float32` values. -/
structure AudioFrame where
  nb_samples : Nat
  data : Nat → List F32

/-- The body of the inner loop of `ProcessAudioFrame` for one `(i, ch)`:
read, process, quantize, and store the two bytes. -/
def storeSample (undef : F32 → Int) (frame : AudioFrame) (i ch : Nat)
    (audioData : List Nat) : Option (List Nat) := do
  let sample ← readView (frame.data ch) i
  let pcm := pcmOf undef sample
  let idx := sampleIdx i ch
  let audioData ← writeAt audioData idx (byteOf pcm)
  writeAt audioData (idx + 1) (byteOf (pcm / 256))

/-- The buffer `ProcessAudioFrame` builds for one decoded unit (lines
157-170): `size = nb_samples*2*2` zero bytes, then the two nested loops. -/
def encodeFrame (undef : F32 → Int) (frame : AudioFrame) : Option (List Nat) :=
  let size := frame.nb_samples * 2 * 2
  let audioData := List.replicate size 0
  forRange frame.nb_samples
    (fun i buf => forRange 2 (fun ch buf => storeSample undef frame i ch buf) buf) audioData

/-- Sample `i` of channel `ch` is stored: its two bytes sit at `sampleIdx i ch`
and the next offset. -/
def Stored (undef : F32 → Int) (frame : AudioFrame) (buf : List Nat) (i ch : Nat) : Prop :=
  ∃ s, (frame.data ch)[i]? = some s ∧
    buf[sampleIdx i ch]? = some (byteOf (pcmOf undef s)) ∧
    buf[sampleIdx i ch + 1]? = some (byteOf (pcmOf undef s / 256))

/-- An integer `t` is a nearest integer to the finite value `x` (any
tie-breaking rule). -/
def IsNearestInt (x : F32) (t : Int) : Prop :=
  match x with
  | F32.fin neg k => 2 * |t * 2 ^ 149 - signedUnits neg k| ≤ 2 ^ 149
  | _ => False

/-! ## pkg/audio: playback staging -/

/-- The inner loop of `PlayAudio`: while at least `bufferSize` bytes are
staged, hand the front `bufferSize` bytes to the sink and advance the staging
buffer. `fuel` bounds the number of iterations. -/
def playStaged (bufferSize : Nat) : Nat → List Nat → List (List Nat) → List Nat × List (List Nat)
  | 0, audioBuffer, played => (audioBuffer, played)
  | fuel + 1, audioBuffer, played =>
    if bufferSize ≤ audioBuffer.length then
      playStaged bufferSize fuel (audioBuffer.drop bufferSize)
        (played ++ [audioBuffer.take bufferSize])
    else (audioBuffer, played)

/-- The loop `for data := range a.audioQueue` of `PlayAudio` over the chunks
received before the queue is closed: append, then play what is staged. The
inner loop runs at most `len(audioBuffer)` times. The result is the staging
buffer left at closure and the buffers handed to the sink, in order. -/
def playAudioWith (bufferSize : Nat) (chunks : List (List Nat)) : List Nat × List (List Nat) :=
  chunks.foldl
    (fun st data =>
      let audioBuffer := st.1 ++ data
      playStaged bufferSize audioBuffer.length audioBuffer st.2)
    ([], [])

/-- Method `AudioDecoder.PlayAudio` with `const bufferSize = 8192`. -/
def PlayAudio (chunks : List (List Nat)) : List Nat × List (List Nat) :=
  playAudioWith 8192 chunks

/-- The consecutive `n`-byte blocks of `xs`: block `j` is bytes `n*j` to
`n*j + n - 1`, for `j < len(xs) / n`. -/
def blocksOf (n : Nat) (xs : List Nat) : List (List Nat) :=
  (List.range (xs.length / n)).map (fun j => (xs.drop (n * j)).take n)

/-! ## pkg/video: pixel conversion -/

/-- The standard library's `image.RGBA`: pixel bytes, stride, and the bounds
`Rect(0, 0, dx, dy)`. -/
structure RGBA where
  Pix : List Nat
  Stride : Nat
  dx : Nat
  dy : Nat
  deriving DecidableEq, Repr

/-- The standard library's `image.NewRGBA(image.Rect(0, 0, w, h))`:
`4*w*h` zero bytes with stride `4*w`. -/
def NewRGBA (w h : Nat) : RGBA :=
  { Pix := List.replicate (4 * w * h) 0, Stride := 4 * w, dx := w, dy := h }

/-- The body of the inner loop of `frameToImage` for pixel `(x, y)`. -/
def copyPixel (frameData : List Nat) (srcIdx dstIdx x : Nat) (pix : List Nat) :
    Option (List Nat) := do
  let r ← readView frameData (srcIdx + x * 3)
  let pix ← writeAt pix (dstIdx + x * 4) r
  let g ← readView frameData (srcIdx + x * 3 + 1)
  let pix ← writeAt pix (dstIdx + x * 4 + 1) g
  let b ← readView frameData (srcIdx + x * 3 + 2)
  let pix ← writeAt pix (dstIdx + x * 4 + 2) b
  writeAt pix (dstIdx + x * 4 + 3) 255

/-- Method `VideoDecoder.frameToImage` for codec dimensions `width`, `height` and
the RGB24 scratch buffer behind `v.buffer`. -/
def frameToImage (width height : Nat) (buffer : List Nat) : Option RGBA :=
  let img := NewRGBA width height
  let frameData := buffer
  (forRange height
    (fun y pix =>
      let srcIdx := y * width * 3
      let dstIdx := y * img.Stride
      forRange width (fun x pix => copyPixel frameData srcIdx dstIdx x pix) pix)
    img.Pix).map (fun pix => { img with Pix := pix })

/-- The first `m` pixels, in row-major order, are copied: pixel `q` has its
three colour bytes at `4*q ..` equal to the source bytes at `3*q ..` and its
alpha byte equal to 255. -/
def CopiedUpTo (frameData pix : List Nat) (m : Nat) : Prop :=
  ∀ q, q < m →
    ∃ r g b, frameData[3 * q]? = some r ∧ frameData[3 * q + 1]? = some g ∧
      frameData[3 * q + 2]? = some b ∧
      pix[4 * q]? = some r ∧ pix[4 * q + 1]? = some g ∧ pix[4 * q + 2]? = some b ∧
      pix[4 * q + 3]? = some 255

/-! ## Decode loops -/

/-- One packet as the decode loop sees it: its stream index, the result of
`avcodec_send_packet` should it be submitted, and the successive results of
`avcodec_receive_frame` after the submission, each with the unit found in the
frame afterwards. Once the listed results are used up the decoder answers
`-11`. -/
structure Packet (U : Type) where
  stream_index : Int
  send : Int
  recv : List (Int × U)

/-- What a decode loop does to its output queue. -/
inductive QEvent (U : Type) where
  | enqueue (u : U) : QEvent U
  | close : QEvent U
  deriving DecidableEq, Repr

/-- The inner loop of `ProcessAudioFrame`:
`for response >= 0 { response = receive; if sentinel { break }; convert; enqueue }`. -/
def audioDrain {U : Type} : List (Int × U) → List (QEvent U)
  | [] => []
  | (response, u) :: rest =>
    if response = -11 ∨ response = -541478725 then []
    else QEvent.enqueue u :: (if response ≥ 0 then audioDrain rest else [])

/-- Method `AudioDecoder.ProcessAudioFrame` over the packets `av_read_frame` yields
before it returns a negative result; the function then returns nil. -/
def ProcessAudioFrame {U : Type} (audioStream : Int) : List (Packet U) → List (QEvent U)
  | [] => []
  | p :: rest =>
    if p.stream_index = audioStream then
      if p.send < 0 then ProcessAudioFrame audioStream rest
      else audioDrain p.recv ++ ProcessAudioFrame audioStream rest
    else ProcessAudioFrame audioStream rest

/-- The inner loop of `DecodeFrames`:
`for { response = receive; if sentinel { break }; convert; enqueue }`. -/
def videoDrain {U : Type} : List (Int × U) → List (QEvent U)
  | [] => []
  | (response, u) :: rest =>
    if response = -11 ∨ response = -541478725 then []
    else QEvent.enqueue u :: videoDrain rest

/-- One iteration of the outer loop of `DecodeFrames`: the quit signal is
ready, or `av_read_frame` fails, or it yields a packet. -/
inductive ReadStep (U : Type) where
  | quit : ReadStep U
  | fail : ReadStep U
  | packet (p : Packet U) : ReadStep U

/-- The outer loop of `DecodeFrames`, without the deferred close. Reading past
the listed steps is the end of the stream. -/
def decodeLoop {U : Type} (videoStream : Int) : List (ReadStep U) → List (QEvent U)
  | [] => []
  | ReadStep.quit :: _ => []
  | ReadStep.fail :: _ => []
  | ReadStep.packet p :: rest =>
    if p.stream_index = videoStream then
      if p.send < 0 then decodeLoop videoStream rest
      else videoDrain p.recv ++ decodeLoop videoStream rest
    else decodeLoop videoStream rest

/-- Method `VideoDecoder.DecodeFrames`: the loop, then `defer close(v.frameBuffer)`. -/
def DecodeFrames {U : Type} (videoStream : Int) (steps : List (ReadStep U)) : List (QEvent U) :=
  decodeLoop videoStream steps ++ [QEvent.close]

/-! ## Sessions: initialization and cleanup -/

/-- How a call ends: it returns, it panics (a Go run-time panic or a crash
inside the C library), or it blocks forever. -/
inductive Outcome (σ : Type) where
  | returned (s : σ) : Outcome σ
  | panicked : Outcome σ
  | blocked : Outcome σ
  deriving DecidableEq, Repr

/-- The `codec_type` of a stream (`enum AVMediaType`). -/
inductive MediaKind where
  | unknown | video | audio | data | subtitle | attachment
  deriving DecidableEq, Repr

/-- What the codec library and the audio device answer during one
`Initialize`: a pointer is `none` for nil, `kinds` lists the `codec_type` of
streams `0 .. nb_streams-1` of the opened container. A failed
`avformat_open_input` frees the context and resets the pointer to nil. -/
structure LibEnv where
  allocFormat : Option Nat
  openInput : Int
  findStreamInfo : Int
  kinds : List MediaKind
  findDecoder : Int → Option Nat
  allocContext : Option Nat
  open2 : Int
  allocFrame : Option Nat
  allocFrameRGB : Option Nat
  swsContext : Option Nat
  buffer : Option Nat
  otoContext : Option Nat

/-- The errors `Initialize` returns, one per `fmt.Errorf`. -/
inductive InitError where
  | allocFormat | openInput | streamInfo | noStream | unsupportedCodec
  | allocContext | openCodec | otoContext
  deriving DecidableEq, Repr

/-- The stream-selection loop of `Initialize`:
`for i := 0; i < nb_streams; i++ { if kind(view[i]) == want { sel = i; break } }`,
entered at index `i` with the remaining streams and the current selection.
Stream `i` is read through the view `(*[1 << 30]*C.AVStream)(...)[i]`, so
reaching index `2^30` panics (`none`). -/
def selectStream (want : MediaKind) : List MediaKind → Nat → Int → Option Int
  | [], _, sel => some sel
  | k :: rest, i, sel =>
    if i < 2 ^ 30 then
      if k = want then some (i : Int) else selectStream want rest (i + 1) sel
    else none

/-- The read `view[idx]` of the selected stream after the loop, for a Go
`int` index: a negative index or one of `2^30` or more panics, and no stream
exists past `nb_streams`. -/
def streamAt (kinds : List MediaKind) (idx : Int) : Option MediaKind :=
  if 0 ≤ idx then readView kinds idx.toNat else none

/-- Index `i` is the least index of a stream of kind `want`. -/
def IsFirstIndex (want : MediaKind) (kinds : List MediaKind) (i : Nat) : Prop :=
  kinds[i]? = some want ∧ ∀ j, j < i → kinds[j]? ≠ some want

/-- The fields of `audio.AudioDecoder` that initialization and cleanup use;
a pointer is `none` for nil, and `audioQueueClosed` is the state of the
channel `audioQueue`. -/
structure AudioDecoder where
  formatContext : Option Nat
  audioContext : Option Nat
  audioFrame : Option Nat
  audioStream : Int
  audioQueueClosed : Bool
  otoCtx : Option Nat
  audioBufferSize : Nat
  deriving DecidableEq, Repr

/-- Function `audio.NewAudioDecoder`. -/
def NewAudioDecoder : AudioDecoder :=
  { formatContext := none, audioContext := none, audioFrame := none, audioStream := -1,
    audioQueueClosed := false, otoCtx := none, audioBufferSize := 8192 }

/-- Method `AudioDecoder.Initialize`: when it returns, the returned error
(`none` for nil) and the session afterwards. The result of
`avcodec_alloc_context3` is nil-checked; the frame from `av_frame_alloc` is
stored and not dereferenced here. -/
def AudioDecoder.Initialize (env : LibEnv) (a : AudioDecoder) :
    Outcome (Option InitError × AudioDecoder) :=
  let a := { a with formatContext := env.allocFormat }
  if a.formatContext = none then Outcome.returned (some InitError.allocFormat, a)
  else if env.openInput ≠ 0 then
    Outcome.returned (some InitError.openInput, { a with formatContext := none })
  else
    match selectStream MediaKind.audio env.kinds 0 a.audioStream with
    | none => Outcome.panicked
    | some sel =>
      let a := { a with audioStream := sel }
      if a.audioStream = -1 then Outcome.returned (some InitError.noStream, a)
      else
        match streamAt env.kinds a.audioStream with
        | none => Outcome.panicked
        | some _ =>
          match env.findDecoder a.audioStream with
          | none => Outcome.returned (some InitError.unsupportedCodec, a)
          | some _ =>
            let a := { a with audioContext := env.allocContext }
            if a.audioContext = none then Outcome.returned (some InitError.allocContext, a)
            else if env.open2 < 0 then Outcome.returned (some InitError.openCodec, a)
            else
              let a := { a with audioFrame := env.allocFrame }
              let a := { a with otoCtx := env.otoContext }
              if env.otoContext = none then Outcome.returned (some InitError.otoContext, a)
              else Outcome.returned (none, a)

/-- The fields of `video.VideoDecoder` that initialization and cleanup use;
`frameBufferClosed` is the state of the channel `frameBuffer`, and
`decoding` says that `DecodeFrames` is running and will receive from `quit`. -/
structure VideoDecoder where
  formatContext : Option Nat
  codecContext : Option Nat
  swsContext : Option Nat
  frame : Option Nat
  frameRGB : Option Nat
  buffer : Option Nat
  videoStream : Int
  frameBufferClosed : Bool
  decoding : Bool
  targetFPS : Nat
  deriving DecidableEq, Repr

/-- Function `video.NewVideoDecoder`. -/
def NewVideoDecoder : VideoDecoder :=
  { formatContext := none, codecContext := none, swsContext := none, frame := none,
    frameRGB := none, buffer := none, videoStream := -1, frameBufferClosed := false,
    decoding := false, targetFPS := 24 }

/-- Method `VideoDecoder.Initialize`: when it returns, the returned error
(`none` for nil) and the session afterwards. The result of
`avcodec_alloc_context3` is not nil-checked: it is passed to
`avcodec_parameters_to_context` and `avcodec_open2` and read for
`v.codecContext.width`, so a nil result crashes. The result of the second
`av_frame_alloc` is dereferenced in `&v.frameRGB.data[0]`, so a nil
`frameRGB` panics; `frame`, `swsContext` and `buffer` are only stored. -/
def VideoDecoder.Initialize (env : LibEnv) (v : VideoDecoder) :
    Outcome (Option InitError × VideoDecoder) :=
  let v := { v with formatContext := env.allocFormat }
  if v.formatContext = none then Outcome.returned (some InitError.allocFormat, v)
  else if env.openInput ≠ 0 then
    Outcome.returned (some InitError.openInput, { v with formatContext := none })
  else if env.findStreamInfo < 0 then Outcome.returned (some InitError.streamInfo, v)
  else
    match selectStream MediaKind.video env.kinds 0 v.videoStream with
    | none => Outcome.panicked
    | some sel =>
      let v := { v with videoStream := sel }
      if v.videoStream = -1 then Outcome.returned (some InitError.noStream, v)
      else
        match streamAt env.kinds v.videoStream with
        | none => Outcome.panicked
        | some _ =>
          match env.findDecoder v.videoStream with
          | none => Outcome.returned (some InitError.unsupportedCodec, v)
          | some _ =>
            let v := { v with codecContext := env.allocContext }
            if v.codecContext = none then Outcome.panicked
            else if env.open2 < 0 then Outcome.returned (some InitError.openCodec, v)
            else
              let v := { v with frame := env.allocFrame, frameRGB := env.allocFrameRGB }
              let v := { v with swsContext := env.swsContext }
              let v := { v with buffer := env.buffer }
              if v.frameRGB = none then Outcome.panicked
              else Outcome.returned (none, v)

/-- Method `VideoDecoder.Start`: `go v.DecodeFrames()`. -/
def VideoDecoder.Start (v : VideoDecoder) : VideoDecoder :=
  { v with decoding := true }

/-- Method `Player.Initialize` on a new player: video first, then audio; when
it returns, the result is the returned error, `none` for nil. -/
def Player.Initialize (videoEnv audioEnv : LibEnv) : Outcome (Option InitError) :=
  match VideoDecoder.Initialize videoEnv NewVideoDecoder with
  | Outcome.panicked => Outcome.panicked
  | Outcome.blocked => Outcome.blocked
  | Outcome.returned (some e, _) => Outcome.returned (some e)
  | Outcome.returned (none, _) =>
    match AudioDecoder.Initialize audioEnv NewAudioDecoder with
    | Outcome.panicked => Outcome.panicked
    | Outcome.blocked => Outcome.blocked
    | Outcome.returned (some e, _) => Outcome.returned (some e)
    | Outcome.returned (none, _) => Outcome.returned none

inductive FreeCall where
  | avcodec_free_context (p : Nat)
  | avformat_close_input (p : Nat)
  | av_frame_free (p : Nat)
  | av_free (p : Nat)
  deriving DecidableEq, Repr

/-- The release calls `pre` followed by the one for `p` when it is not nil. -/
def freeIf (p : Option Nat) (call : Nat → FreeCall) (pre : List FreeCall) : List FreeCall :=
  match p with
  | some q => pre ++ [call q]
  | none => pre

/-- The five guarded releases of `VideoDecoder.Cleanup`, in source order.
`avcodec_free_context`, `avformat_close_input` and `av_frame_free` take the
address of the field and reset it to nil; `av_free(v.buffer)` takes the
pointer itself, so `v.buffer` keeps its value. -/
def VideoDecoder.release (v : VideoDecoder) : VideoDecoder × List FreeCall :=
  let log := freeIf v.codecContext FreeCall.avcodec_free_context []
  let log := freeIf v.formatContext FreeCall.avformat_close_input log
  let log := freeIf v.frame FreeCall.av_frame_free log
  let log := freeIf v.frameRGB FreeCall.av_frame_free log
  let log := freeIf v.buffer FreeCall.av_free log
  ({ v with codecContext := none, formatContext := none, frame := none, frameRGB := none }, log)

/-- Method `VideoDecoder.Cleanup`: `v.quit <- true` on the unbuffered channel `quit`
completes only when `DecodeFrames` receives it (and then returns); after it,
the guarded releases. -/
def VideoDecoder.Cleanup (v : VideoDecoder) : Outcome (VideoDecoder × List FreeCall) :=
  if v.decoding then Outcome.returned (VideoDecoder.release { v with decoding := false })
  else Outcome.blocked

/-- Method `AudioDecoder.Cleanup`: `close(a.audioQueue)`, which panics on a closed
channel, then the three guarded releases in source order. -/
def AudioDecoder.Cleanup (a : AudioDecoder) : Outcome (AudioDecoder × List FreeCall) :=
  if a.audioQueueClosed then Outcome.panicked
  else
    let log := freeIf a.audioFrame FreeCall.av_frame_free []
    let log := freeIf a.audioContext FreeCall.avcodec_free_context log
    let log := freeIf a.formatContext FreeCall.avformat_close_input log
    Outcome.returned
      ({ a with audioQueueClosed := true, audioFrame := none, audioContext := none,
                formatContext := none }, log)

/-- A library environment in which every call succeeds, for a container whose
streams are video then audio. -/
def okEnv : LibEnv :=
  { allocFormat := some 1, openInput := 0, findStreamInfo := 0,
    kinds := [MediaKind.video, MediaKind.audio], findDecoder := fun _ => some 2,
    allocContext := some 3, open2 := 0, allocFrame := some 4, allocFrameRGB := some 5,
    swsContext := some 6, buffer := some 7, otoContext := some 8 }

/-- The environment `okEnv` for a container that holds a video stream only. -/
def videoOnlyEnv : LibEnv := { okEnv with kinds := [MediaKind.video] }

/-- A packet of stream 0 that the decoder accepts and whose first retrieval
fails with `-22` (`AVERROR(EINVAL)`), the frame holding unit `7`. -/
def failingPacket : Packet Nat := { stream_index := 0, send := 0, recv := [(-22, 7)] }

/-- A packet of stream 0 that the decoder rejects with `-22` on submission;
it would have yielded unit `7`. -/
def rejectedPacket : Packet Nat := { stream_index := 0, send := -22, recv := [(0, 7)] }

/-- The environment `okEnv` whose `avcodec_alloc_context3` returns nil. -/
def noContextEnv : LibEnv := { okEnv with allocContext := none }

/-- The environment `okEnv` for a container of `2^30 + 1` streams: `2^30`
data streams, then one audio stream. -/
def manyStreamsEnv : LibEnv :=
  { okEnv with kinds := List.replicate (2 ^ 30) MediaKind.data ++ [MediaKind.audio] }

/-- A decoded unit of one sample per channel, both NaN. -/
def nanFrame : AudioFrame := { nb_samples := 1, data := fun _ => [F32.nan] }

/-- A decoded unit of `2^30 + 1` samples per channel, all zero. -/
def hugeFrame : AudioFrame :=
  { nb_samples := 2 ^ 30 + 1, data := fun _ => List.replicate (2 ^ 30 + 1) (F32.fin false 0) }

/-! ## Lemmas on float32 -/

theorem f32Round_ne_nan (neg : Bool) (a sh : Nat) : f32Round neg a sh ≠ F32.nan := by
  unfold f32Round
  simp only
  split <;> simp

theorem mul_c075_ne_nan (s : F32) (hs : s ≠ F32.nan) : F32.mul s c075 ≠ F32.nan := by
  cases s with
  | nan => exact absurd rfl hs
  | inf neg => simp [F32.mul, c075]
  | fin neg k => simpa [F32.mul, c075] using f32Round_ne_nan _ _ _

theorem le_of_not_lt (a b : F32) (ha : a ≠ F32.nan) (hb : b ≠ F32.nan)
    (h : F32.lt b a = false) : F32.le a b = true := by
  cases a <;> cases b <;> simp_all [F32.le]

theorem clip_in_range (x : F32) (hx : x ≠ F32.nan) :
    F32.le cNeg08 (if F32.gt x c08 then c08 else if F32.lt x cNeg08 then cNeg08 else x) = true ∧
    F32.le (if F32.gt x c08 then c08 else if F32.lt x cNeg08 then cNeg08 else x) c08 = true := by
  by_cases h1 : F32.gt x c08 = true
  · simp only [h1, if_true]
    exact ⟨by decide, by decide⟩
  · simp only [h1]
    by_cases h2 : F32.lt x cNeg08 = true
    · simp only [h2, if_true]
      exact ⟨by decide, by decide⟩
    · simp only [h2]
      simp only [Bool.not_eq_true] at h1 h2
      refine ⟨le_of_not_lt _ _ (by decide) hx h2, le_of_not_lt _ _ hx (by decide) ?_⟩
      simpa [F32.gt] using h1

theorem bitLenAux_le (fuel : Nat) : ∀ (a n : Nat), a < 2 ^ n → bitLenAux fuel a ≤ n := by
  induction fuel with
  | zero => intro a n _; simp [bitLenAux]
  | succ f ih =>
    intro a n h
    unfold bitLenAux
    split
    · exact Nat.zero_le _
    · rename_i ha
      cases n with
      | zero => simp at h; exact absurd h ha
      | succ m =>
        have : a / 2 < 2 ^ m := by
          rw [Nat.div_lt_iff_lt_mul (by norm_num)]
          rw [pow_succ] at h
          exact h
        have := ih (a / 2) m this
        omega

theorem bitLen_le (a n : Nat) (h : a < 2 ^ n) : bitLen a ≤ n := bitLenAux_le a a n h

theorem roundHalfEven_le (a d : Nat) : roundHalfEven a d ≤ a / 2 ^ d + 1 := by
  unfold roundHalfEven
  simp only
  split
  · omega
  · split
    · split <;> omega
    · omega

theorem roundHalfEven_mul_le (a d : Nat) : roundHalfEven a d * 2 ^ d ≤ a + 2 ^ d := by
  have h1 := roundHalfEven_le a d
  have h2 : a / 2 ^ d * 2 ^ d ≤ a := Nat.div_mul_le_self a (2 ^ d)
  calc roundHalfEven a d * 2 ^ d ≤ (a / 2 ^ d + 1) * 2 ^ d := Nat.mul_le_mul_right _ h1
    _ = a / 2 ^ d * 2 ^ d + 2 ^ d := by ring
    _ ≤ a + 2 ^ d := by omega

/-- The rounded quotient is a nearest one: `roundHalfEven a d * 2^d` is
within half a unit `2^d` of `a`, and the quotient is even when `a` lies
exactly half-way. -/
theorem roundHalfEven_nearest (a d : Nat) :
    2 * a ≤ 2 * (roundHalfEven a d * 2 ^ d) + 2 ^ d ∧
    2 * (roundHalfEven a d * 2 ^ d) ≤ 2 * a + 2 ^ d ∧
    (2 * (a % 2 ^ d) = 2 ^ d → roundHalfEven a d % 2 = 0) := by
  have hm : a / 2 ^ d * 2 ^ d + a % 2 ^ d = a := Nat.div_add_mod' a (2 ^ d)
  have hr : a % 2 ^ d < 2 ^ d := Nat.mod_lt _ (by positivity)
  have hs : (a / 2 ^ d + 1) * 2 ^ d = a / 2 ^ d * 2 ^ d + 2 ^ d := by ring
  unfold roundHalfEven
  simp only
  split
  · refine ⟨by omega, by omega, by omega⟩
  · split
    · split
      · refine ⟨by omega, by omega, by omega⟩
      · rw [hs]; refine ⟨by omega, by omega, by omega⟩
    · rw [hs]; refine ⟨by omega, by omega, by omega⟩

theorem lt_two_pow_bitLenAux (fuel : Nat) :
    ∀ a, a ≤ fuel → a < 2 ^ bitLenAux fuel a := by
  induction fuel with
  | zero => intro a h; simp [bitLenAux]; omega
  | succ f ih =>
    intro a h
    unfold bitLenAux
    split
    · omega
    · have := ih (a / 2) (by omega)
      rw [pow_succ]
      omega

theorem lt_two_pow_bitLen (a : Nat) : a < 2 ^ bitLen a :=
  lt_two_pow_bitLenAux a a (Nat.le_refl a)

/-- The significand that `f32Round` keeps has at most 24 bits (or is `2^24`
after a carry). -/
theorem f32Round_significand (a sh : Nat) :
    roundHalfEven a (max sh (bitLen a - 24)) ≤ 2 ^ 24 := by
  have hd : bitLen a ≤ max sh (bitLen a - 24) + 24 := by omega
  have h1 : a < 2 ^ (max sh (bitLen a - 24) + 24) :=
    lt_of_lt_of_le (lt_two_pow_bitLen a) (Nat.pow_le_pow_right (by norm_num) hd)
  have h2 : a / 2 ^ max sh (bitLen a - 24) < 2 ^ 24 := by
    rw [Nat.div_lt_iff_lt_mul (by positivity), ← pow_add, Nat.add_comm]
    exact h1
  have := roundHalfEven_le a (max sh (bitLen a - 24))
  omega

/-- The constant `c08` is the `float32` nearest to 4/5: with 24 significant
bits, `13421773 / 2^24` is within half a unit in the last place of `4/5`. -/
theorem c08_nearest :
    c08 = F32.fin false (13421773 * 2 ^ 125) ∧
    2 * (5 * 13421773 - 4 * 2 ^ 24) ≤ 5 ∧ 2 ^ 23 ≤ 13421773 ∧ 13421773 < 2 ^ 24 := by
  refine ⟨rfl, by norm_num, by norm_num, by norm_num⟩

/-- Rounding a magnitude of at most `0.8 * 32767` (rounded up) keeps it finite and
below `26215`. -/
theorem f32Round_small (neg : Bool) (a : Nat) (ha : a ≤ 13421773 * 2 ^ 125 * (32767 * 2 ^ 149)) :
    ∃ k, f32Round neg a 149 = F32.fin neg k ∧ k / 2 ^ 149 ≤ 26214 := by
  have hbits : bitLen a ≤ 313 := by
    apply bitLen_le
    have : 13421773 * 2 ^ 125 * (32767 * 2 ^ 149) < 2 ^ 313 := by norm_num
    omega
  have hd : max 149 (bitLen a - 24) ≤ 289 := by omega
  have hd2 : 149 ≤ max 149 (bitLen a - 24) := le_max_left _ _
  unfold f32Round
  simp only
  generalize max 149 (bitLen a - 24) = d at hd hd2
  have hpow : 2 ^ (d - 149) * 2 ^ 149 = 2 ^ d := by
    rw [← pow_add]; congr 1; omega
  have hk : roundHalfEven a d * 2 ^ (d - 149) * 2 ^ 149 ≤ a + 2 ^ d := by
    rw [mul_assoc, hpow]; exact roundHalfEven_mul_le a d
  have h2d : 2 ^ d ≤ 2 ^ 289 := Nat.pow_le_pow_right (by norm_num) hd
  generalize roundHalfEven a d * 2 ^ (d - 149) = k at hk
  have hlt : k < 26215 * 2 ^ 149 := by
    by_contra hcon
    have hcon : 26215 * 2 ^ 149 ≤ k := Nat.le_of_not_lt hcon
    have h3 : 26215 * 2 ^ 149 * 2 ^ 149 ≤ k * 2 ^ 149 := Nat.mul_le_mul_right _ hcon
    have h4 : 13421773 * 2 ^ 125 * (32767 * 2 ^ 149) + 2 ^ 289 < 26215 * 2 ^ 149 * 2 ^ 149 := by
      norm_num
    omega
  have hno : ¬ (2 ^ 24 ≤ k / 2 ^ 253) := by
    rw [not_le, Nat.div_lt_iff_lt_mul (by positivity)]
    have : 26215 * 2 ^ 149 < 2 ^ 24 * 2 ^ 253 := by norm_num
    omega
  refine ⟨k, if_neg hno, ?_⟩
  have : k / 2 ^ 149 < 26215 := by
    rw [Nat.div_lt_iff_lt_mul (by positivity)]; exact hlt
  omega

theorem in_range_fin (p : F32) (h1 : F32.le cNeg08 p = true) (h2 : F32.le p c08 = true) :
    ∃ neg j, p = F32.fin neg j ∧ j ≤ 13421773 * 2 ^ 125 := by
  cases p with
  | nan => simp [F32.le] at h2
  | inf neg => cases neg <;> simp [F32.le, F32.lt, c08, cNeg08] at h1 h2
  | fin neg j =>
    refine ⟨neg, j, rfl, ?_⟩
    cases neg
    · simp only [F32.le, F32.lt, c08, signedUnits, Bool.not_eq_true', decide_eq_false_iff_not] at h2
      simp only [Bool.false_eq_true, if_false] at h2
      omega
    · simp only [F32.le, F32.lt, cNeg08, signedUnits, Bool.not_eq_true', decide_eq_false_iff_not] at h1
      simp only [if_true] at h1
      omega

/-- The product of an in-range sample with `32767.0` is finite and its
truncation fits in 16 bits, so `int16` is exact truncation there. -/
theorem int16_of_in_range (undef : F32 → Int) (p : F32)
    (h1 : F32.le cNeg08 p = true) (h2 : F32.le p c08 = true) :
    ∃ t : Int, truncTowardZero (F32.mul p c32767) = some t ∧
      int16OfF32 undef (F32.mul p c32767) = t ∧ -26214 ≤ t ∧ t ≤ 26214 := by
  obtain ⟨neg, j, rfl, hj⟩ := in_range_fin p h1 h2
  have ha : j * (32767 * 2 ^ 149) ≤ 13421773 * 2 ^ 125 * (32767 * 2 ^ 149) :=
    Nat.mul_le_mul_right _ hj
  obtain ⟨k, hk, hk2⟩ := f32Round_small (xor neg false) _ ha
  have hmul : F32.mul (F32.fin neg j) c32767 = F32.fin (xor neg false) k := by
    simp only [F32.mul, c32767]; exact hk
  rw [hmul]
  have hb : -26214 ≤ signedUnits (xor neg false) (k / 2 ^ 149) ∧
      signedUnits (xor neg false) (k / 2 ^ 149) ≤ 26214 := by
    unfold signedUnits
    split <;> omega
  refine ⟨signedUnits (xor neg false) (k / 2 ^ 149), rfl, ?_, hb.1, hb.2⟩
  simp only [int16OfF32, truncTowardZero]
  rw [if_pos]
  omega

/-! ## C1, C2: the sample transform -/

theorem processAudioSample_range (s : F32) (hs : s ≠ F32.nan) :
    F32.le cNeg08 (processAudioSample s) = true ∧
    F32.le (processAudioSample s) c08 = true :=
  clip_in_range (F32.mul s c075) (mul_c075_ne_nan s hs)

theorem pcmOf_spec (undef : F32 → Int) (s : F32) (hs : s ≠ F32.nan) :
    truncTowardZero (F32.mul (processAudioSample s) c32767) = some (pcmOf undef s) ∧
    -26214 ≤ pcmOf undef s ∧ pcmOf undef s ≤ 26214 := by
  obtain ⟨h1, h2⟩ := processAudioSample_range s hs
  obtain ⟨t, ht, hi, hlo, hhi⟩ := int16_of_in_range undef (processAudioSample s) h1 h2
  have : pcmOf undef s = t := hi
  rw [this]
  exact ⟨ht, hlo, hhi⟩

/-- C1 (amended): for every input sample `s` that is not NaN,
`processAudioSample s` equals the float32 product `0.75 * s` clipped to
`[-0.8, 0.8]` (`0.8` if the product exceeds `0.8`, `-0.8` if it is below
`-0.8`, otherwise the product), and so lies in `[-0.8, 0.8]`. -/
theorem processAudioSample_clips (s : F32) (hs : s ≠ F32.nan) :
    processAudioSample s = clipTo cNeg08 c08 (F32.mul s c075) ∧
    F32.le cNeg08 (processAudioSample s) = true ∧
    F32.le (processAudioSample s) c08 = true := by
  exact ⟨rfl, processAudioSample_range s hs⟩

/-- C1 witness: the sample `0.5` is not NaN; it is processed to `0.375`. -/
theorem processAudioSample_clips_witness :
    processAudioSample (F32.fin false (2 ^ 148)) = F32.fin false (3 * 2 ^ 146) ∧
    (processAudioSample (F32.fin false (2 ^ 148))
        = clipTo cNeg08 c08 (F32.mul (F32.fin false (2 ^ 148)) c075) ∧
      F32.le cNeg08 (processAudioSample (F32.fin false (2 ^ 148))) = true ∧
      F32.le (processAudioSample (F32.fin false (2 ^ 148))) c08 = true) :=
  ⟨by decide, processAudioSample_clips (F32.fin false (2 ^ 148)) (by decide)⟩

/-- C1 counterexample: the NaN sample is processed to NaN, which is not in
`[-0.8, 0.8]`. -/
theorem processAudioSample_nan_escapes :
    processAudioSample F32.nan = F32.nan ∧
    ¬ (F32.le cNeg08 (processAudioSample F32.nan) = true ∧
       F32.le (processAudioSample F32.nan) c08 = true) := by
  decide

/-- C2 (amended): for every processed sample `p = processAudioSample s` of a
sample `s` that is not NaN, the 16-bit value emitted for it is the float32
product `p * 32767` truncated toward zero, and it lies in `[-26214, 26214]`. -/
theorem pcm_is_truncation (undef : F32 → Int) (s : F32) (hs : s ≠ F32.nan) :
    truncTowardZero (F32.mul (processAudioSample s) c32767) = some (pcmOf undef s) ∧
    -26214 ≤ pcmOf undef s ∧ pcmOf undef s ≤ 26214 :=
  pcmOf_spec undef s hs

/-- C2 witness: for the sample `0.5` the emitted value is `12287`. -/
theorem pcm_is_truncation_witness :
    pcmOf (fun _ => 0) (F32.fin false (2 ^ 148)) = 12287 ∧
    (truncTowardZero (F32.mul (processAudioSample (F32.fin false (2 ^ 148))) c32767)
        = some (pcmOf (fun _ => 0) (F32.fin false (2 ^ 148))) ∧
      -26214 ≤ pcmOf (fun _ => 0) (F32.fin false (2 ^ 148)) ∧
      pcmOf (fun _ => 0) (F32.fin false (2 ^ 148)) ≤ 26214) :=
  ⟨by decide, pcm_is_truncation (fun _ => 0) (F32.fin false (2 ^ 148)) (by decide)⟩

/-- C2 counterexample: the sample `0.5` is processed to `p = 0.375`, the
product `p * 32767` is exactly `12287.625`, and the emitted value is `12287`,
which is not a nearest integer to it (that is `12288`). -/
theorem pcm_not_rounded :
    processAudioSample (F32.fin false (2 ^ 148)) = F32.fin false (3 * 2 ^ 146) ∧
    F32.mul (F32.fin false (3 * 2 ^ 146)) c32767 = F32.fin false (98301 * 2 ^ 146) ∧
    (∀ undef, int16OfF32 undef (F32.fin false (98301 * 2 ^ 146)) = 12287) ∧
    ¬ IsNearestInt (F32.fin false (98301 * 2 ^ 146)) 12287 ∧
    IsNearestInt (F32.fin false (98301 * 2 ^ 146)) 12288 := by
  refine ⟨by decide, by decide, fun undef => ?_, ?_, ?_⟩
  · rfl
  · simp only [IsNearestInt, signedUnits]
    norm_num
  · simp only [IsNearestInt, signedUnits]
    norm_num

/-! ## Counted loops and stores -/

theorem forRange_succ {σ : Type} (n : Nat) (body : Nat → σ → Option σ) (s : σ) :
    forRange (n + 1) body s = (forRange n body s).bind (body n) := by
  unfold forRange
  rw [List.range_succ, List.foldlM_append]
  cases h : List.foldlM (fun acc i => body i acc) s (List.range n) <;> simp [List.foldlM]

theorem forRange_zero {σ : Type} (body : Nat → σ → Option σ) (s : σ) :
    forRange 0 body s = some s := by
  simp [forRange, List.foldlM]

/-- Invariant rule for a counted loop whose body cannot fail while the
invariant holds. -/
theorem forRange_invariant {σ : Type} (n : Nat) (body : Nat → σ → Option σ)
    (P : Nat → σ → Prop) (s : σ) (h0 : P 0 s)
    (hstep : ∀ i t, i < n → P i t → ∃ t', body i t = some t' ∧ P (i + 1) t') :
    ∃ t, forRange n body s = some t ∧ P n t := by
  induction n with
  | zero => exact ⟨s, forRange_zero body s, h0⟩
  | succ m ih =>
    obtain ⟨t, ht, hP⟩ := ih (fun i t hi hp => hstep i t (Nat.lt_succ_of_lt hi) hp)
    obtain ⟨t', ht', hP'⟩ := hstep m t (Nat.lt_succ_self m) hP
    exact ⟨t', by rw [forRange_succ, ht]; exact ht', hP'⟩

/-- A counted loop panics when its body panics at some index in every state. -/
theorem forRange_none {σ : Type} (n i : Nat) (body : Nat → σ → Option σ) (s : σ)
    (hi : i < n) (hfail : ∀ t, body i t = none) : forRange n body s = none := by
  induction n with
  | zero => exact absurd hi (Nat.not_lt_zero i)
  | succ m ih =>
    rw [forRange_succ]
    rcases Nat.lt_succ_iff_lt_or_eq.mp hi with h | h
    · rw [ih h]; rfl
    · subst h
      cases forRange i body s with
      | none => rfl
      | some t => exact hfail t

theorem writeAt_some {α : Type} (buf : List α) (i : Nat) (b : α) (h : i < buf.length) :
    writeAt buf i b = some (buf.set i b) := by
  simp [writeAt, h]

theorem readView_some {α : Type} (xs : List α) (i : Nat) (h : i < xs.length)
    (hv : i < 2 ^ 30) : readView xs i = some (xs.get ⟨i, h⟩) := by
  unfold readView
  rw [if_pos hv, List.getElem?_eq_getElem h]
  rfl

/-! ## C3: the interleaved buffer -/

theorem storeSample_spec (undef : F32 → Int) (frame : AudioFrame) (n i ch : Nat)
    (buf : List Nat) (hlen : buf.length = 4 * n) (hi : i < n) (hch : ch < 2)
    (hdata : i < (frame.data ch).length) (hv : i < 2 ^ 30) :
    ∃ buf', storeSample undef frame i ch buf = some buf' ∧ buf'.length = 4 * n ∧
      Stored undef frame buf' i ch ∧
      ∀ j, j ≠ sampleIdx i ch → j ≠ sampleIdx i ch + 1 → buf'[j]? = buf[j]? := by
  have hidx : sampleIdx i ch + 1 < buf.length := by unfold sampleIdx; omega
  have hidx0 : sampleIdx i ch < buf.length := by omega
  refine ⟨(buf.set (sampleIdx i ch) (byteOf (pcmOf undef ((frame.data ch).get ⟨i, hdata⟩)))).set
      (sampleIdx i ch + 1) (byteOf (pcmOf undef ((frame.data ch).get ⟨i, hdata⟩) / 256)),
    ?_, ?_, ?_, ?_⟩
  · unfold storeSample
    rw [readView_some _ _ hdata hv]
    simp only [Option.bind_eq_bind, Option.some_bind]
    rw [writeAt_some _ _ _ hidx0]
    simp only [Option.some_bind]
    rw [writeAt_some _ _ _ (by rw [List.length_set]; exact hidx)]
  · simp [hlen]
  · refine ⟨(frame.data ch).get ⟨i, hdata⟩, ?_, ?_, ?_⟩
    · rw [List.getElem?_eq_getElem hdata]; rfl
    · rw [List.getElem?_set_ne (by omega), List.getElem?_set_self hidx0]
    · rw [List.getElem?_set_self (by rw [List.length_set]; exact hidx)]
  · intro j h1 h2
    rw [List.getElem?_set_ne (Ne.symm h2), List.getElem?_set_ne (Ne.symm h1)]

theorem Stored_of_frame (undef : F32 → Int) (frame : AudioFrame) (buf buf' : List Nat)
    (i ch i' ch' : Nat) (hch : ch < 2) (hch' : ch' < 2) (hne : i' ≠ i ∨ ch' ≠ ch)
    (hframe : ∀ j, j ≠ sampleIdx i ch → j ≠ sampleIdx i ch + 1 → buf'[j]? = buf[j]?)
    (h : Stored undef frame buf i' ch') : Stored undef frame buf' i' ch' := by
  obtain ⟨s, hs, h0, h1⟩ := h
  refine ⟨s, hs, ?_, ?_⟩
  · rw [hframe _ (by unfold sampleIdx; omega) (by unfold sampleIdx; omega)]; exact h0
  · rw [hframe _ (by unfold sampleIdx; omega) (by unfold sampleIdx; omega)]; exact h1

/-- The nested loops of `encodeFrame` succeed and store every sample. -/
theorem encodeFrame_stored (undef : F32 → Int) (frame : AudioFrame)
    (hdata : ∀ ch, ch < 2 → frame.nb_samples ≤ (frame.data ch).length)
    (hview : frame.nb_samples ≤ 2 ^ 30) :
    ∃ buf, encodeFrame undef frame = some buf ∧ buf.length = 4 * frame.nb_samples ∧
      ∀ i ch, i < frame.nb_samples → ch < 2 → Stored undef frame buf i ch := by
  unfold encodeFrame
  simp only
  obtain ⟨buf, hbuf, hlen, hst⟩ := forRange_invariant frame.nb_samples
    (fun i buf => forRange 2 (fun ch buf => storeSample undef frame i ch buf) buf)
    (fun i buf => buf.length = 4 * frame.nb_samples ∧
      ∀ i' ch, i' < i → ch < 2 → Stored undef frame buf i' ch)
    (List.replicate (frame.nb_samples * 2 * 2) 0)
    ⟨by simp; omega, fun i' ch hi' _ => absurd hi' (Nat.not_lt_zero i')⟩
    (by
      intro i buf hi ⟨hlen, hprev⟩
      obtain ⟨buf', hbuf', hlen', hprev', hcur⟩ := forRange_invariant 2
        (fun ch buf => storeSample undef frame i ch buf)
        (fun c buf => buf.length = 4 * frame.nb_samples ∧
          (∀ i' ch, i' < i → ch < 2 → Stored undef frame buf i' ch) ∧
          ∀ ch, ch < c → Stored undef frame buf i ch)
        buf ⟨hlen, hprev, fun ch hch => absurd hch (Nat.not_lt_zero ch)⟩
        (by
          intro c t hc ⟨htlen, htprev, htcur⟩
          obtain ⟨t', ht', hlen', hst', hframe⟩ := storeSample_spec undef frame
            frame.nb_samples i c t htlen hi hc
            (lt_of_lt_of_le hi (hdata c hc)) (lt_of_lt_of_le hi hview)
          refine ⟨t', ht', hlen', ?_, ?_⟩
          · intro i' ch hi' hch
            exact Stored_of_frame undef frame t t' i c i' ch hc hch
              (Or.inl (Nat.ne_of_lt hi')) hframe (htprev i' ch hi' hch)
          · intro ch hch
            rcases Nat.lt_succ_iff_lt_or_eq.mp hch with h | h
            · exact Stored_of_frame undef frame t t' i c i ch hc (by omega)
                (Or.inr (Nat.ne_of_lt h)) hframe (htcur ch h)
            · subst h; exact hst')
      refine ⟨buf', hbuf', hlen', ?_⟩
      intro i' ch hi' hch
      rcases Nat.lt_succ_iff_lt_or_eq.mp hi' with h | h
      · exact hprev' i' ch h hch
      · subst h; exact hcur ch hch)
  exact ⟨buf, hbuf, hlen, fun i ch hi hch => hst i ch hi hch⟩

theorem byteOf_lt (v : Int) : byteOf v < 256 := by
  unfold byteOf; omega

theorem byteOf_pair (v : Int) :
    (byteOf v : Int) + 256 * (byteOf (v / 256) : Int) = v % 65536 := by
  unfold byteOf; omega

/-- C3 (amended): for a decoded unit with `n = nb_samples` samples in each
of its two planes, `n` at most `2^30`, `ProcessAudioFrame` builds a buffer
of exactly `4*n` bytes; for every `i < n` and `ch < 2` the bytes at
`4*i + 2*ch` and `4*i + 2*ch + 1` are the low and high byte of the
two's-complement 16-bit value `int16(processAudioSample(sample) * 32767)`,
which for a sample that is not NaN is the float32 product truncated toward
zero; and every offset below `4*n` belongs to exactly one pair `(i, ch)`. -/
theorem encodeFrame_layout (undef : F32 → Int) (frame : AudioFrame)
    (hdata : ∀ ch, ch < 2 → frame.nb_samples ≤ (frame.data ch).length)
    (hview : frame.nb_samples ≤ 2 ^ 30) :
    ∃ buf, encodeFrame undef frame = some buf ∧ buf.length = 4 * frame.nb_samples ∧
      (∀ i ch, i < frame.nb_samples → ch < 2 →
        ∃ s b0 b1, (frame.data ch)[i]? = some s ∧
          buf[4 * i + 2 * ch]? = some b0 ∧ buf[4 * i + 2 * ch + 1]? = some b1 ∧
          b0 < 256 ∧ b1 < 256 ∧
          (b0 : Int) + 256 * (b1 : Int) = pcmOf undef s % 65536 ∧
          (s ≠ F32.nan →
            truncTowardZero (F32.mul (processAudioSample s) c32767) = some (pcmOf undef s))) ∧
      (∀ j, j < 4 * frame.nb_samples →
        ∃! p : Nat × Nat, p.1 < frame.nb_samples ∧ p.2 < 2 ∧
          (j = sampleIdx p.1 p.2 ∨ j = sampleIdx p.1 p.2 + 1)) := by
  obtain ⟨buf, hbuf, hlen, hst⟩ := encodeFrame_stored undef frame hdata hview
  refine ⟨buf, hbuf, hlen, ?_, ?_⟩
  · intro i ch hi hch
    obtain ⟨s, hs, h0, h1⟩ := hst i ch hi hch
    have e : sampleIdx i ch = 4 * i + 2 * ch := by unfold sampleIdx; omega
    rw [e] at h0 h1
    exact ⟨s, _, _, hs, h0, h1, byteOf_lt _, byteOf_lt _, byteOf_pair _,
      fun hne => (pcmOf_spec undef s hne).1⟩
  · intro j hj
    refine ⟨(j / 4, j % 4 / 2), ⟨?_, ?_, ?_⟩, ?_⟩
    · show j / 4 < frame.nb_samples
      omega
    · show j % 4 / 2 < 2
      omega
    · show j = sampleIdx (j / 4) (j % 4 / 2) ∨ j = sampleIdx (j / 4) (j % 4 / 2) + 1
      unfold sampleIdx; omega
    · rintro ⟨a, b⟩ ⟨_, hb, h⟩
      simp only [sampleIdx] at h hb
      simp only [Prod.mk.injEq]
      constructor <;> omega

/-- C3 witness: one stereo sample pair `(0.5, -0.5)` gives the four bytes
`FF 2F 01 D0`, that is `12287` and `-12287` little-endian. -/
theorem encodeFrame_layout_witness :
    encodeFrame (fun _ => 0)
        ⟨1, fun ch => if ch = 0 then [F32.fin false (2 ^ 148)] else [F32.fin true (2 ^ 148)]⟩
      = some [255, 47, 1, 208] ∧
    ∃ buf, encodeFrame (fun _ => 0)
        ⟨1, fun ch => if ch = 0 then [F32.fin false (2 ^ 148)] else [F32.fin true (2 ^ 148)]⟩
        = some buf ∧ buf.length = 4 * 1 :=
  ⟨by decide,
   (encodeFrame_layout (fun _ => 0)
      ⟨1, fun ch => if ch = 0 then [F32.fin false (2 ^ 148)] else [F32.fin true (2 ^ 148)]⟩
      (by intro ch _; by_cases h : ch = 0 <;> simp [h])
      (by norm_num)).imp (fun _ h => ⟨h.1, h.2.1⟩)⟩

theorem encodeFrame_none_of_large (undef : F32 → Int) (frame : AudioFrame)
    (h : 2 ^ 30 < frame.nb_samples) : encodeFrame undef frame = none := by
  unfold encodeFrame
  simp only
  apply forRange_none frame.nb_samples (2 ^ 30) _ _ h
  intro t
  apply forRange_none 2 0 _ _ (by norm_num)
  intro t'
  unfold storeSample readView
  rw [if_neg (Nat.lt_irrefl _)]
  rfl

/-- C3 counterexample: for a unit whose samples are NaN there is no
truncation of `processAudioSample(sample) * 32767`, and the bytes emitted are
whatever the implementation-dependent conversion yields (`00 00` or `FF FF`
for two such choices); and for a unit of `2^30 + 1` samples per channel, both
planes complete, the read of sample `2^30` is outside the array view and no
buffer is built. -/
theorem encodeFrame_nan_or_huge :
    truncTowardZero (F32.mul (processAudioSample F32.nan) c32767) = none ∧
    encodeFrame (fun _ => 0) nanFrame = some [0, 0, 0, 0] ∧
    encodeFrame (fun _ => -1) nanFrame = some [255, 255, 255, 255] ∧
    (∀ ch, hugeFrame.nb_samples ≤ (hugeFrame.data ch).length) ∧
    (∀ undef, encodeFrame undef hugeFrame = none) :=
  ⟨by decide, by decide, by decide,
   fun _ => Nat.le_of_eq (List.length_replicate _ _).symm,
   fun undef => encodeFrame_none_of_large undef hugeFrame (Nat.lt_succ_self _)⟩

/-! ## C4: pixel conversion -/

theorem copyPixel_spec (frameData pix : List Nat) (srcIdx dstIdx x q N : Nat)
    (hsrc : srcIdx + x * 3 = 3 * q) (hdst : dstIdx + x * 4 = 4 * q) (hq : q < N)
    (hpix : pix.length = 4 * N) (hbuf : 3 * N ≤ frameData.length) (hview : 3 * N ≤ 2 ^ 30)
    (hprev : CopiedUpTo frameData pix q) :
    ∃ pix', copyPixel frameData srcIdx dstIdx x pix = some pix' ∧ pix'.length = 4 * N ∧
      CopiedUpTo frameData pix' (q + 1) := by
  have hr : 3 * q < frameData.length := by omega
  have hg : 3 * q + 1 < frameData.length := by omega
  have hb : 3 * q + 2 < frameData.length := by omega
  refine ⟨(((pix.set (4 * q) (frameData.get ⟨3 * q, hr⟩)).set (4 * q + 1)
      (frameData.get ⟨3 * q + 1, hg⟩)).set (4 * q + 2) (frameData.get ⟨3 * q + 2, hb⟩)).set
      (4 * q + 3) 255, ?_, ?_, ?_⟩
  · unfold copyPixel
    rw [hsrc, hdst]
    rw [readView_some _ _ hr (by omega), readView_some _ _ hg (by omega),
      readView_some _ _ hb (by omega)]
    simp only [Option.bind_eq_bind, Option.some_bind]
    rw [writeAt_some _ _ _ (by omega)]
    simp only [Option.some_bind]
    rw [writeAt_some _ _ _ (by rw [List.length_set]; omega)]
    simp only [Option.some_bind]
    rw [writeAt_some _ _ _ (by rw [List.length_set, List.length_set]; omega)]
    simp only [Option.some_bind]
    rw [writeAt_some _ _ _ (by rw [List.length_set, List.length_set, List.length_set]; omega)]
  · simp [hpix]
  · intro p hp
    rcases Nat.lt_succ_iff_lt_or_eq.mp hp with h | h
    · obtain ⟨r, g, b, h1, h2, h3, h4, h5, h6, h7⟩ := hprev p h
      refine ⟨r, g, b, h1, h2, h3, ?_, ?_, ?_, ?_⟩
      · rw [List.getElem?_set_ne (by omega), List.getElem?_set_ne (by omega),
          List.getElem?_set_ne (by omega), List.getElem?_set_ne (by omega)]; exact h4
      · rw [List.getElem?_set_ne (by omega), List.getElem?_set_ne (by omega),
          List.getElem?_set_ne (by omega), List.getElem?_set_ne (by omega)]; exact h5
      · rw [List.getElem?_set_ne (by omega), List.getElem?_set_ne (by omega),
          List.getElem?_set_ne (by omega), List.getElem?_set_ne (by omega)]; exact h6
      · rw [List.getElem?_set_ne (by omega), List.getElem?_set_ne (by omega),
          List.getElem?_set_ne (by omega), List.getElem?_set_ne (by omega)]; exact h7
    · subst h
      refine ⟨frameData.get ⟨3 * p, hr⟩, frameData.get ⟨3 * p + 1, hg⟩,
        frameData.get ⟨3 * p + 2, hb⟩, ?_, ?_, ?_, ?_, ?_, ?_, ?_⟩
      · rw [List.getElem?_eq_getElem hr]; rfl
      · rw [List.getElem?_eq_getElem hg]; rfl
      · rw [List.getElem?_eq_getElem hb]; rfl
      · rw [List.getElem?_set_ne (by omega), List.getElem?_set_ne (by omega),
          List.getElem?_set_ne (by omega), List.getElem?_set_self (by omega)]
      · rw [List.getElem?_set_ne (by omega), List.getElem?_set_ne (by omega),
          List.getElem?_set_self (by rw [List.length_set]; omega)]
      · rw [List.getElem?_set_ne (by omega),
          List.getElem?_set_self (by rw [List.length_set, List.length_set]; omega)]
      · rw [List.getElem?_set_self
          (by rw [List.length_set, List.length_set, List.length_set]; omega)]

theorem pixel_index_lt (x y w h : Nat) (hx : x < w) (hy : y < h) : y * w + x < w * h := by
  have h1 : (y + 1) * w ≤ h * w := Nat.mul_le_mul_right w hy
  have h2 : (y + 1) * w = y * w + w := by ring
  have h3 : h * w = w * h := Nat.mul_comm h w
  omega

/-- The nested loops of `frameToImage` succeed and copy every pixel. -/
theorem frameToImage_loops (w h : Nat) (buffer : List Nat)
    (hlen : buffer.length = w * h * 3) (hview : w * h * 3 ≤ 2 ^ 30) :
    ∃ pix, forRange h (fun y pix => forRange w
        (fun x pix => copyPixel buffer (y * w * 3) (y * (4 * w)) x pix) pix)
        (List.replicate (4 * w * h) 0) = some pix ∧
      pix.length = 4 * (w * h) ∧ CopiedUpTo buffer pix (h * w) := by
  have hb : 3 * (w * h) ≤ buffer.length := by omega
  have hv : 3 * (w * h) ≤ 2 ^ 30 := by omega
  refine forRange_invariant h _
    (fun y pix => pix.length = 4 * (w * h) ∧ CopiedUpTo buffer pix (y * w)) _
    ⟨by simp [Nat.mul_assoc], fun q hq => absurd hq (by simp)⟩ ?_
  intro y pix hy ⟨hpl, hprev⟩
  have hrow := forRange_invariant w
    (fun x pix => copyPixel buffer (y * w * 3) (y * (4 * w)) x pix)
    (fun x pix => pix.length = 4 * (w * h) ∧ CopiedUpTo buffer pix (y * w + x)) pix
    ⟨hpl, hprev⟩
    (by
      intro x t hx ⟨htl, htprev⟩
      exact copyPixel_spec buffer t (y * w * 3) (y * (4 * w)) x (y * w + x) (w * h)
        (by ring) (by ring) (pixel_index_lt x y w h hx hy) htl hb hv htprev)
  obtain ⟨pix', h1, h2, h3⟩ := hrow
  refine ⟨pix', h1, h2, ?_⟩
  have : (y + 1) * w = y * w + w := by ring
  rw [this]; exact h3

/-- C4 (amended): for every width `w`, height `h` and RGB24 source buffer of
`w*h*3` bytes, where `w*h*3` is at most `2^30` (the length of the array view
through which the buffer is read), `frameToImage` returns an image with
bounds `w x h` and stride `4*w` whose bytes at `y*Stride + 4*x`, `+1`, `+2`
equal the source bytes at `3*(y*w + x)`, `+1`, `+2` and whose byte at
`y*Stride + 4*x + 3` is 255, for every `x < w` and `y < h`. -/
theorem frameToImage_copies (w h : Nat) (buffer : List Nat)
    (hlen : buffer.length = w * h * 3) (hview : w * h * 3 ≤ 2 ^ 30) :
    ∃ img, frameToImage w h buffer = some img ∧ img.dx = w ∧ img.dy = h ∧
      img.Stride = 4 * w ∧ img.Pix.length = 4 * w * h ∧
      ∀ x y, x < w → y < h →
        ∃ r g b, buffer[3 * (y * w + x)]? = some r ∧ buffer[3 * (y * w + x) + 1]? = some g ∧
          buffer[3 * (y * w + x) + 2]? = some b ∧
          img.Pix[y * img.Stride + 4 * x]? = some r ∧
          img.Pix[y * img.Stride + 4 * x + 1]? = some g ∧
          img.Pix[y * img.Stride + 4 * x + 2]? = some b ∧
          img.Pix[y * img.Stride + 4 * x + 3]? = some 255 := by
  obtain ⟨pix, hpix, hl, hc⟩ := frameToImage_loops w h buffer hlen hview
  refine ⟨{ NewRGBA w h with Pix := pix }, ?_, rfl, rfl, rfl, ?_, ?_⟩
  · unfold frameToImage
    simp only [NewRGBA]
    rw [hpix]
    rfl
  · show pix.length = 4 * w * h
    rw [hl, Nat.mul_assoc]
  · intro x y hx hy
    have hq : y * w + x < h * w := by
      have := pixel_index_lt x y w h hx hy
      rwa [Nat.mul_comm w h] at this
    have e : y * (4 * w) + 4 * x = 4 * (y * w + x) := by ring
    show ∃ r g b, buffer[3 * (y * w + x)]? = some r ∧ buffer[3 * (y * w + x) + 1]? = some g ∧
          buffer[3 * (y * w + x) + 2]? = some b ∧
          pix[y * (4 * w) + 4 * x]? = some r ∧
          pix[y * (4 * w) + 4 * x + 1]? = some g ∧
          pix[y * (4 * w) + 4 * x + 2]? = some b ∧
          pix[y * (4 * w) + 4 * x + 3]? = some 255
    rw [e]
    exact hc (y * w + x) hq

/-- C4 witness: a `2 x 1` frame. -/
theorem frameToImage_copies_witness :
    frameToImage 2 1 [10, 20, 30, 40, 50, 60]
      = some ⟨[10, 20, 30, 255, 40, 50, 60, 255], 8, 2, 1⟩ ∧
    ∃ img, frameToImage 2 1 [10, 20, 30, 40, 50, 60] = some img ∧ img.dx = 2 ∧ img.dy = 1 :=
  ⟨by decide,
   (frameToImage_copies 2 1 [10, 20, 30, 40, 50, 60] (by decide) (by norm_num)).imp
     (fun _ h => ⟨h.1, h.2.1, h.2.2.1⟩)⟩

/-- C4 counterexample: for a `20000 x 20000` frame with its source buffer of
`20000*20000*3` bytes, the read of source index `1073741826` in row `17895`
is outside the `2^30`-element array view, and `frameToImage` panics instead
of returning an image. -/
theorem frameToImage_panics_on_huge_frame :
    frameToImage 20000 20000 (List.replicate (20000 * 20000 * 3) 0) = none := by
  unfold frameToImage
  simp only
  rw [forRange_none 20000 17895 _ _ (by norm_num)]
  · rfl
  · intro pix
    apply forRange_none 20000 13942 _ _ (by norm_num)
    intro t
    unfold copyPixel readView
    rw [if_neg (by norm_num)]
    rfl

/-! ## C5: playback staging -/

theorem playStaged_spec (n : Nat) (hn : 0 < n) (fuel : Nat) :
    ∀ (buf : List Nat) (played : List (List Nat)), buf.length ≤ fuel →
      ∃ new, (playStaged n fuel buf played).2 = played ++ new ∧
        (∀ b ∈ new, b.length = n) ∧
        new.flatten ++ (playStaged n fuel buf played).1 = buf ∧
        (playStaged n fuel buf played).1.length < n := by
  induction fuel with
  | zero =>
    intro buf played h
    have : buf = [] := List.length_eq_zero.mp (Nat.le_zero.mp h)
    subst this
    exact ⟨[], by simp [playStaged], by simp, by simp [playStaged], by simpa [playStaged] using hn⟩
  | succ f ih =>
    intro buf played h
    unfold playStaged
    by_cases hb : n ≤ buf.length
    · rw [if_pos hb]
      obtain ⟨new, h1, h2, h3, h4⟩ := ih (buf.drop n) (played ++ [buf.take n])
        (by rw [List.length_drop]; omega)
      refine ⟨buf.take n :: new, ?_, ?_, ?_, h4⟩
      · rw [h1]; simp
      · intro b hbm
        rcases List.mem_cons.mp hbm with h | h
        · rw [h, List.length_take]; omega
        · exact h2 b h
      · rw [List.flatten_cons, List.append_assoc, h3, List.take_append_drop]
    · rw [if_neg hb]
      exact ⟨[], by simp, by simp, by simp, by simpa using hb⟩

theorem playAudioWith_invariant (n : Nat) (hn : 0 < n) (chunks : List (List Nat)) :
    ∀ (st : List Nat × List (List Nat)),
      let out := chunks.foldl
        (fun st data => playStaged n (st.1 ++ data).length (st.1 ++ data) st.2) st
      ∃ new, out.2 = st.2 ++ new ∧ (∀ b ∈ new, b.length = n) ∧
        new.flatten ++ out.1 = st.1 ++ chunks.flatten ∧ (st.1.length < n → out.1.length < n) := by
  induction chunks with
  | nil =>
    intro st
    exact ⟨[], by simp, by simp, by simp, fun h => by simpa using h⟩
  | cons c cs ih =>
    intro st
    simp only [List.foldl_cons]
    obtain ⟨new1, a1, a2, a3, a4⟩ := playStaged_spec n hn (st.1 ++ c).length (st.1 ++ c) st.2
      (Nat.le_refl _)
    obtain ⟨new2, b1, b2, b3, b4⟩ :=
      ih (playStaged n (st.1 ++ c).length (st.1 ++ c) st.2)
    refine ⟨new1 ++ new2, ?_, ?_, ?_, ?_⟩
    · rw [b1, a1, List.append_assoc]
    · intro b hb
      rcases List.mem_append.mp hb with h | h
      · exact a2 b h
      · exact b2 b h
    · rw [List.flatten_append, List.append_assoc, b3, ← List.append_assoc, a3]
      simp
    · intro _
      exact b4 a4

theorem blocksOf_append (n : Nat) (hn : 0 < n) (b xs : List Nat) (hb : b.length = n) :
    blocksOf n (b ++ xs) = b :: blocksOf n xs := by
  unfold blocksOf
  have hlen : (b ++ xs).length / n = xs.length / n + 1 := by
    rw [List.length_append, hb, Nat.add_comm, Nat.add_div_right _ hn]
  rw [hlen, List.range_succ_eq_map, List.map_cons, List.map_map]
  congr 1
  · simp [hb]
  · apply List.map_congr_left
    intro j _
    simp only [Function.comp]
    have : n * (j + 1) = b.length + n * j := by rw [hb]; ring
    rw [this, List.drop_append]

/-- Blocks of length `n` followed by fewer than `n` bytes are the consecutive
blocks of the whole, and the rest is what lies beyond them. -/
theorem blocks_unique (n : Nat) (hn : 0 < n) (played : List (List Nat)) :
    ∀ (rest : List Nat), (∀ b ∈ played, b.length = n) → rest.length < n →
      played = blocksOf n (played.flatten ++ rest) ∧
      (played.flatten ++ rest).length / n = played.length ∧
      (played.flatten ++ rest).length % n = rest.length := by
  induction played with
  | nil =>
    intro rest _ hr
    simp [blocksOf, Nat.div_eq_of_lt hr, Nat.mod_eq_of_lt hr]
  | cons b ps ih =>
    intro rest hall hr
    have hb : b.length = n := hall b (List.mem_cons_self _ _)
    obtain ⟨i1, i2, i3⟩ := ih rest (fun c hc => hall c (List.mem_cons_of_mem _ hc)) hr
    refine ⟨?_, ?_, ?_⟩
    · rw [List.flatten_cons, List.append_assoc, blocksOf_append n hn b _ hb, ← i1]
    · rw [List.flatten_cons, List.append_assoc, List.length_append, hb, Nat.add_comm,
        Nat.add_div_right _ hn, i2, List.length_cons]
    · rw [List.flatten_cons, List.append_assoc, List.length_append, hb, Nat.add_comm,
        Nat.add_mod_right, i3]

/-- C5: for every finite sequence of chunks received before the queue is
closed, the buffers `PlayAudio` hands to the sink are exactly the consecutive
8192-byte blocks of the concatenation of the chunks, in order: there are
`total / 8192` of them, each of 8192 bytes, together they are the first
`8192 * (total / 8192)` bytes, and the trailing `total % 8192` bytes are left
in the staging buffer, never played. -/
theorem PlayAudio_plays_blocks (chunks : List (List Nat)) :
    (PlayAudio chunks).2 = blocksOf 8192 chunks.flatten ∧
    (PlayAudio chunks).2.length = chunks.flatten.length / 8192 ∧
    (∀ b ∈ (PlayAudio chunks).2, b.length = 8192) ∧
    (PlayAudio chunks).2.flatten = chunks.flatten.take (8192 * (chunks.flatten.length / 8192)) ∧
    (PlayAudio chunks).1 = chunks.flatten.drop (8192 * (chunks.flatten.length / 8192)) ∧
    (PlayAudio chunks).1.length = chunks.flatten.length % 8192 := by
  obtain ⟨new, h1, h2, h3, h4⟩ := playAudioWith_invariant 8192 (by norm_num) chunks ([], [])
  simp only [List.nil_append] at h1 h3
  have h4 := h4 (by simp)
  change (PlayAudio chunks).2 = new at h1
  change new.flatten ++ (PlayAudio chunks).1 = chunks.flatten at h3
  change (PlayAudio chunks).1.length < 8192 at h4
  obtain ⟨u1, u2, u3⟩ := blocks_unique 8192 (by norm_num) new (PlayAudio chunks).1 h2 h4
  rw [h3] at u1 u2 u3
  have hjoin : new.flatten.length = 8192 * (chunks.flatten.length / 8192) := by
    have := congrArg List.length h3
    rw [List.length_append] at this
    have := Nat.div_add_mod chunks.flatten.length 8192
    omega
  refine ⟨h1.trans u1, by rw [h1]; exact u2.symm, by rw [h1]; exact h2, ?_, ?_, u3.symm⟩
  · rw [h1, ← hjoin, ← h3, List.take_left]
  · rw [← hjoin, ← h3, List.drop_left]

/-! ## C7: stream selection -/

theorem selectStream_cases (want : MediaKind) (kinds : List MediaKind) :
    ∀ (i : Nat) (sel : Int), i + kinds.length ≤ 2 ^ 30 →
      ((∀ k ∈ kinds, k ≠ want) ∧ selectStream want kinds i sel = some sel) ∨
      (∃ j, IsFirstIndex want kinds j ∧
        selectStream want kinds i sel = some ((i + j : Nat) : Int)) := by
  induction kinds with
  | nil => intro i sel _; exact Or.inl ⟨by simp, rfl⟩
  | cons k rest ih =>
    intro i sel hlen
    have hi : i < 2 ^ 30 := by
      rw [List.length_cons] at hlen; omega
    unfold selectStream
    rw [if_pos hi]
    by_cases hk : k = want
    · rw [if_pos hk]
      exact Or.inr ⟨0, ⟨by simp [hk], fun j hj => absurd hj (Nat.not_lt_zero j)⟩, by simp⟩
    · rw [if_neg hk]
      rcases ih (i + 1) sel (by rw [List.length_cons] at hlen; omega) with
        ⟨hno, hsel⟩ | ⟨j, ⟨hj1, hj2⟩, hsel⟩
      · refine Or.inl ⟨?_, hsel⟩
        intro k' hk'
        rcases List.mem_cons.mp hk' with h | h
        · rw [h]; exact hk
        · exact hno k' h
      · refine Or.inr ⟨j + 1, ⟨by simpa using hj1, ?_⟩, ?_⟩
        · intro m hm
          cases m with
          | zero => simpa using hk
          | succ m' => simpa using hj2 m' (by omega)
        · rw [hsel]; congr 2; omega

theorem not_first_of_none (want : MediaKind) (kinds : List MediaKind) (i : Nat)
    (hno : ∀ k ∈ kinds, k ≠ want) : ¬ IsFirstIndex want kinds i := by
  intro ⟨h, _⟩
  exact hno want (List.getElem?_mem h) rfl

theorem first_index_unique (want : MediaKind) (kinds : List MediaKind) (i j : Nat)
    (hi : IsFirstIndex want kinds i) (hj : IsFirstIndex want kinds j) : i = j := by
  rcases Nat.lt_trichotomy i j with h | h | h
  · exact absurd hi.1 (hj.2 i h)
  · exact h
  · exact absurd hj.1 (hi.2 j h)

theorem streamAt_first (want : MediaKind) (kinds : List MediaKind) (j : Nat)
    (hlen : kinds.length ≤ 2 ^ 30) (hj : IsFirstIndex want kinds j) :
    streamAt kinds (j : Int) = some want := by
  have hlt : j < kinds.length := (List.getElem?_eq_some.mp hj.1).1
  unfold streamAt readView
  rw [if_pos (Int.natCast_nonneg j), Int.toNat_natCast, if_pos (by omega)]
  exact hj.1

/-- The selection made after the container opened, for at most `2^30`
streams: the least index of the wanted kind when there is one, and `-1`
exactly when there is none. -/
theorem selection_spec (want : MediaKind) (kinds : List MediaKind)
    (hlen : kinds.length ≤ 2 ^ 30) :
    ((∀ k ∈ kinds, k ≠ want) ∧ selectStream want kinds 0 (-1) = some (-1)) ∨
    (∃ j, IsFirstIndex want kinds j ∧ selectStream want kinds 0 (-1) = some (j : Int) ∧
      streamAt kinds (j : Int) = some want) := by
  rcases selectStream_cases want kinds 0 (-1) (by omega) with ⟨hno, h⟩ | ⟨j, hj, h⟩
  · exact Or.inl ⟨hno, h⟩
  · refine Or.inr ⟨j, hj, ?_, streamAt_first want kinds j hlen hj⟩
    rw [h]; simp

theorem audio_Initialize_none (env : LibEnv) (halloc : env.allocFormat ≠ none)
    (hopen : env.openInput = 0)
    (hsel : selectStream MediaKind.audio env.kinds 0 (-1) = some (-1)) :
    ∃ a, AudioDecoder.Initialize env NewAudioDecoder
        = Outcome.returned (some InitError.noStream, a) ∧ a.audioStream = -1 := by
  unfold AudioDecoder.Initialize
  simp only [NewAudioDecoder, halloc, hopen, hsel, if_false, ne_eq, not_true_eq_false, if_true]
  exact ⟨_, rfl, rfl⟩

theorem audio_Initialize_found (env : LibEnv) (halloc : env.allocFormat ≠ none)
    (hopen : env.openInput = 0) (j : Nat)
    (hsel : selectStream MediaKind.audio env.kinds 0 (-1) = some (j : Int))
    (hat : streamAt env.kinds (j : Int) = some MediaKind.audio) :
    ∃ e a, AudioDecoder.Initialize env NewAudioDecoder = Outcome.returned (e, a) ∧
      a.audioStream = (j : Int) := by
  have hne : ¬ ((j : Int) = -1) := by omega
  unfold AudioDecoder.Initialize
  simp only [NewAudioDecoder, halloc, hopen, hsel, hat, hne, if_false, ne_eq,
    not_true_eq_false]
  split
  · exact ⟨_, _, rfl, rfl⟩
  · split
    · exact ⟨_, _, rfl, rfl⟩
    · split
      · exact ⟨_, _, rfl, rfl⟩
      · split <;> exact ⟨_, _, rfl, rfl⟩

theorem video_Initialize_none (env : LibEnv) (halloc : env.allocFormat ≠ none)
    (hopen : env.openInput = 0) (hinfo : 0 ≤ env.findStreamInfo)
    (hsel : selectStream MediaKind.video env.kinds 0 (-1) = some (-1)) :
    ∃ v, VideoDecoder.Initialize env NewVideoDecoder
        = Outcome.returned (some InitError.noStream, v) ∧ v.videoStream = -1 := by
  unfold VideoDecoder.Initialize
  simp only [NewVideoDecoder, halloc, hopen, hsel, if_false, ne_eq, not_true_eq_false, if_true,
    not_lt.mpr hinfo]
  exact ⟨_, rfl, rfl⟩

/-- With a video stream selected, `VideoDecoder.Initialize` either crashes
or returns with that index; it returns when the codec context and the RGB
frame are allocated. -/
theorem video_Initialize_found (env : LibEnv) (halloc : env.allocFormat ≠ none)
    (hopen : env.openInput = 0) (hinfo : 0 ≤ env.findStreamInfo) (j : Nat)
    (hsel : selectStream MediaKind.video env.kinds 0 (-1) = some (j : Int))
    (hat : streamAt env.kinds (j : Int) = some MediaKind.video) :
    (∀ e v, VideoDecoder.Initialize env NewVideoDecoder = Outcome.returned (e, v) →
      v.videoStream = (j : Int)) ∧
    (env.allocContext ≠ none → env.allocFrameRGB ≠ none →
      ∃ e v, VideoDecoder.Initialize env NewVideoDecoder = Outcome.returned (e, v)) := by
  have hne : ¬ ((j : Int) = -1) := by omega
  unfold VideoDecoder.Initialize
  simp only [NewVideoDecoder, halloc, hopen, hsel, hat, hne, if_false, ne_eq,
    not_true_eq_false, not_lt.mpr hinfo]
  split
  · exact ⟨fun e v h => (by cases h; rfl), fun _ _ => ⟨_, _, rfl⟩⟩
  · split
    · exact ⟨fun e v h => (by cases h), fun h _ => absurd (by assumption) h⟩
    · split
      · exact ⟨fun e v h => (by cases h; rfl), fun _ _ => ⟨_, _, rfl⟩⟩
      · split
        · exact ⟨fun e v h => (by cases h), fun _ h => absurd (by assumption) h⟩
        · exact ⟨fun e v h => (by cases h; rfl), fun _ _ => ⟨_, _, rfl⟩⟩

theorem video_Initialize_not_blocked (env : LibEnv) (v : VideoDecoder) :
    VideoDecoder.Initialize env v ≠ Outcome.blocked := by
  unfold VideoDecoder.Initialize
  simp only
  repeat' split
  all_goals simp

/-- Without a stream of kind audio among at most `2^30` streams,
`AudioDecoder.Initialize` returns an error whatever the library answers. -/
theorem audio_Initialize_fails (env : LibEnv) (hno : ∀ k ∈ env.kinds, k ≠ MediaKind.audio)
    (hlen : env.kinds.length ≤ 2 ^ 30) :
    ∃ e a, AudioDecoder.Initialize env NewAudioDecoder = Outcome.returned (some e, a) := by
  by_cases halloc : env.allocFormat = none
  · unfold AudioDecoder.Initialize
    simp only [NewAudioDecoder, halloc, if_true]
    exact ⟨_, _, rfl⟩
  · by_cases hopen : env.openInput = 0
    · rcases selection_spec MediaKind.audio env.kinds hlen with ⟨_, h⟩ | ⟨j, hj, _, _⟩
      · obtain ⟨a, ha, _⟩ := audio_Initialize_none env halloc hopen h
        exact ⟨_, a, ha⟩
      · exact absurd hj (not_first_of_none _ _ _ hno)
    · unfold AudioDecoder.Initialize
      simp only [NewAudioDecoder, halloc, hopen, if_false, ne_eq, not_false_eq_true, if_true]
      exact ⟨_, _, rfl⟩

theorem selectStream_replicate (want k : MediaKind) (rest : List MediaKind) (hk : k ≠ want)
    (sel : Int) : ∀ (n i : Nat), i + n ≤ 2 ^ 30 →
      selectStream want (List.replicate n k ++ rest) i sel
        = selectStream want rest (i + n) sel := by
  intro n
  induction n with
  | zero => intro i _; simp
  | succ m ih =>
    intro i h
    have hi : i < 2 ^ 30 := by omega
    have e : i + 1 + m = i + (m + 1) := by omega
    simp only [List.replicate_succ, List.cons_append, selectStream, hi, hk, if_true, if_false]
    have h2 := ih (i + 1) (by omega)
    rw [e] at h2
    exact h2

/-- C7 (amended): once the container is open and lists at most `2^30`
streams, `Initialize` of a new session selects the least index whose kind is
the required one (video for `VideoDecoder`, audio for `AudioDecoder`):
`AudioDecoder.Initialize` returns with that index, `VideoDecoder.Initialize`
never returns with another one and returns with it when its codec context and
RGB frame are allocated. Each returns an error with the selected index left
at `-1` if and only if no stream of the required kind exists (the error is
then the no-stream one). For a file without an audio stream,
`Player.Initialize` returns an error whenever the video session's
`Initialize` returns at all. -/
theorem Initialize_selects_first_stream (env : LibEnv) (halloc : env.allocFormat ≠ none)
    (hopen : env.openInput = 0) (hinfo : 0 ≤ env.findStreamInfo)
    (hlen : env.kinds.length ≤ 2 ^ 30) :
    (∀ i, IsFirstIndex MediaKind.video env.kinds i →
      (∀ e v, VideoDecoder.Initialize env NewVideoDecoder = Outcome.returned (e, v) →
        v.videoStream = (i : Int)) ∧
      (env.allocContext ≠ none → env.allocFrameRGB ≠ none →
        ∃ e v, VideoDecoder.Initialize env NewVideoDecoder = Outcome.returned (e, v) ∧
          v.videoStream = (i : Int))) ∧
    ((∃ e v, VideoDecoder.Initialize env NewVideoDecoder = Outcome.returned (some e, v) ∧
        v.videoStream = -1) ↔
      ∀ k ∈ env.kinds, k ≠ MediaKind.video) ∧
    ((∀ k ∈ env.kinds, k ≠ MediaKind.video) →
      ∃ v, VideoDecoder.Initialize env NewVideoDecoder
          = Outcome.returned (some InitError.noStream, v) ∧ v.videoStream = -1) ∧
    (∀ i, IsFirstIndex MediaKind.audio env.kinds i →
      ∃ e a, AudioDecoder.Initialize env NewAudioDecoder = Outcome.returned (e, a) ∧
        a.audioStream = (i : Int)) ∧
    ((∃ e a, AudioDecoder.Initialize env NewAudioDecoder = Outcome.returned (some e, a) ∧
        a.audioStream = -1) ↔
      ∀ k ∈ env.kinds, k ≠ MediaKind.audio) ∧
    ((∀ k ∈ env.kinds, k ≠ MediaKind.audio) →
      ∃ a, AudioDecoder.Initialize env NewAudioDecoder
          = Outcome.returned (some InitError.noStream, a) ∧ a.audioStream = -1) ∧
    (∀ videoEnv audioEnv : LibEnv, (∀ k ∈ audioEnv.kinds, k ≠ MediaKind.audio) →
      audioEnv.kinds.length ≤ 2 ^ 30 →
      VideoDecoder.Initialize videoEnv NewVideoDecoder ≠ Outcome.panicked →
      ∃ e, Player.Initialize videoEnv audioEnv = Outcome.returned (some e)) := by
  have hvideo := selection_spec MediaKind.video env.kinds hlen
  have haudio := selection_spec MediaKind.audio env.kinds hlen
  refine ⟨?_, ?_, ?_, ?_, ?_, ?_, ?_⟩
  · intro i hi
    rcases hvideo with ⟨hno, _⟩ | ⟨j, hj, hsel, hat⟩
    · exact absurd hi (not_first_of_none _ _ _ hno)
    · have hij := first_index_unique _ _ i j hi hj
      subst hij
      obtain ⟨h1, h2⟩ := video_Initialize_found env halloc hopen hinfo i hsel hat
      refine ⟨h1, fun hc hr => ?_⟩
      obtain ⟨e, v, hev⟩ := h2 hc hr
      exact ⟨e, v, hev, h1 e v hev⟩
  · constructor
    · rintro ⟨e, v, hev, hidx⟩
      rcases hvideo with ⟨hno, _⟩ | ⟨j, hj, hsel, hat⟩
      · exact hno
      · have := (video_Initialize_found env halloc hopen hinfo j hsel hat).1 _ _ hev
        rw [this] at hidx
        omega
    · intro hno
      rcases hvideo with ⟨_, hsel⟩ | ⟨j, hj, _, _⟩
      · obtain ⟨v, hv, hidx⟩ := video_Initialize_none env halloc hopen hinfo hsel
        exact ⟨_, v, hv, hidx⟩
      · exact absurd hj (not_first_of_none _ _ _ hno)
  · intro hno
    rcases hvideo with ⟨_, hsel⟩ | ⟨j, hj, _, _⟩
    · exact video_Initialize_none env halloc hopen hinfo hsel
    · exact absurd hj (not_first_of_none _ _ _ hno)
  · intro i hi
    rcases haudio with ⟨hno, _⟩ | ⟨j, hj, hsel, hat⟩
    · exact absurd hi (not_first_of_none _ _ _ hno)
    · have hij := first_index_unique _ _ i j hi hj
      subst hij
      exact audio_Initialize_found env halloc hopen i hsel hat
  · constructor
    · rintro ⟨e, a, hea, hidx⟩
      rcases haudio with ⟨hno, _⟩ | ⟨j, hj, hsel, hat⟩
      · exact hno
      · obtain ⟨e', a', hea', hidx'⟩ := audio_Initialize_found env halloc hopen j hsel hat
        rw [hea] at hea'
        cases hea'
        rw [hidx'] at hidx
        omega
    · intro hno
      rcases haudio with ⟨_, hsel⟩ | ⟨j, hj, _, _⟩
      · obtain ⟨a, ha, hidx⟩ := audio_Initialize_none env halloc hopen hsel
        exact ⟨_, a, ha, hidx⟩
      · exact absurd hj (not_first_of_none _ _ _ hno)
  · intro hno
    rcases haudio with ⟨_, hsel⟩ | ⟨j, hj, _, _⟩
    · exact audio_Initialize_none env halloc hopen hsel
    · exact absurd hj (not_first_of_none _ _ _ hno)
  · intro videoEnv audioEnv hno hl hv
    obtain ⟨ea, a, hA⟩ := audio_Initialize_fails audioEnv hno hl
    unfold Player.Initialize
    cases hV : VideoDecoder.Initialize videoEnv NewVideoDecoder with
    | panicked => exact absurd hV hv
    | blocked => exact absurd hV (video_Initialize_not_blocked _ _)
    | returned r =>
      obtain ⟨e, v⟩ := r
      cases e with
      | some e' => exact ⟨e', rfl⟩
      | none => exact ⟨ea, by simp only [hA]⟩

/-- C7 witness: for a container with streams video, audio every call
succeeds and the sessions select indices 0 and 1; for a container with a
video stream only, `Player.Initialize` returns the no-stream error. -/
theorem Initialize_selects_first_stream_witness :
    Player.Initialize okEnv videoOnlyEnv = Outcome.returned (some InitError.noStream) ∧
    (∃ e v, VideoDecoder.Initialize okEnv NewVideoDecoder = Outcome.returned (e, v) ∧
      v.videoStream = 0) ∧
    (∃ e a, AudioDecoder.Initialize okEnv NewAudioDecoder = Outcome.returned (e, a) ∧
      a.audioStream = 1) ∧
    ∃ e, Player.Initialize okEnv videoOnlyEnv = Outcome.returned (some e) :=
  have h := Initialize_selects_first_stream okEnv (by decide) (by decide) (by decide)
    (by simp [okEnv])
  ⟨by decide,
   (h.1 0 ⟨by decide, fun j hj => absurd hj (Nat.not_lt_zero j)⟩).2 (by decide) (by decide),
   h.2.2.2.1 1 ⟨by decide, fun j hj => by
      have : j = 0 := by omega
      subst this; decide⟩,
   h.2.2.2.2.2.2 okEnv videoOnlyEnv (by decide) (by simp [videoOnlyEnv]) (by decide)⟩


theorem first_after_replicate (n : Nat) :
    IsFirstIndex MediaKind.audio (List.replicate n MediaKind.data ++ [MediaKind.audio]) n := by
  constructor
  · rw [List.getElem?_append_right (by simp)]
    simp
  · intro j hj
    rw [List.getElem?_append_left (by simpa using hj)]
    simp [List.getElem?_replicate, hj]

theorem selectStream_past_view (n : Nat) (hn : n = 2 ^ 30) :
    selectStream MediaKind.audio (List.replicate n MediaKind.data ++ [MediaKind.audio]) 0 (-1)
      = none := by
  rw [selectStream_replicate _ _ _ (by decide) _ n 0 (by omega)]
  simp only [selectStream]
  rw [if_neg (by omega)]

theorem audio_Initialize_panics (env : LibEnv) (halloc : env.allocFormat ≠ none)
    (hopen : env.openInput = 0)
    (hsel : selectStream MediaKind.audio env.kinds 0 (-1) = none) :
    AudioDecoder.Initialize env NewAudioDecoder = Outcome.panicked := by
  unfold AudioDecoder.Initialize
  simp only [NewAudioDecoder, halloc, hopen, hsel, if_false, ne_eq, not_true_eq_false]

/-- C7 counterexample: in a container of `2^30 + 1` streams whose only audio
stream is the last, index `2^30` is the least audio index, yet
`AudioDecoder.Initialize` panics on the indexing of the stream view and
selects nothing; and for a file with a video stream only,
`Player.Initialize` crashes instead of returning an error when
`avcodec_alloc_context3` returns nil in the video session. -/
theorem Initialize_panics_without_error :
    IsFirstIndex MediaKind.audio manyStreamsEnv.kinds (2 ^ 30) ∧
    AudioDecoder.Initialize manyStreamsEnv NewAudioDecoder = Outcome.panicked ∧
    (∀ k ∈ videoOnlyEnv.kinds, k ≠ MediaKind.audio) ∧
    Player.Initialize noContextEnv videoOnlyEnv = Outcome.panicked :=
  ⟨first_after_replicate (2 ^ 30),
   audio_Initialize_panics manyStreamsEnv (fun h => Option.noConfusion h) rfl
     (selectStream_past_view (2 ^ 30) rfl),
   by decide, by decide⟩
/-! ## C6, C9: the decode loops and their queues -/

theorem close_not_mem_audioDrain {U : Type} (recv : List (Int × U)) :
    QEvent.close ∉ audioDrain recv := by
  induction recv with
  | nil => simp [audioDrain]
  | cons r rest ih =>
    obtain ⟨response, u⟩ := r
    unfold audioDrain
    split
    · simp
    · split
      · simpa using ih
      · simp

theorem close_not_mem_videoDrain {U : Type} (recv : List (Int × U)) :
    QEvent.close ∉ videoDrain recv := by
  induction recv with
  | nil => simp [videoDrain]
  | cons r rest ih =>
    obtain ⟨response, u⟩ := r
    unfold videoDrain
    split
    · simp
    · simpa using ih

theorem close_not_mem_ProcessAudioFrame {U : Type} (audioStream : Int)
    (packets : List (Packet U)) : QEvent.close ∉ ProcessAudioFrame audioStream packets := by
  induction packets with
  | nil => simp [ProcessAudioFrame]
  | cons p rest ih =>
    unfold ProcessAudioFrame
    split
    · split
      · exact ih
      · simp only [List.mem_append, not_or]
        exact ⟨close_not_mem_audioDrain p.recv, ih⟩
    · exact ih

theorem close_not_mem_decodeLoop {U : Type} (videoStream : Int)
    (steps : List (ReadStep U)) : QEvent.close ∉ decodeLoop videoStream steps := by
  induction steps with
  | nil => simp [decodeLoop]
  | cons s rest ih =>
    cases s with
    | quit => simp [decodeLoop]
    | fail => simp [decodeLoop]
    | packet p =>
      unfold decodeLoop
      split
      · split
        · exact ih
        · simp only [List.mem_append, not_or]
          exact ⟨close_not_mem_videoDrain p.recv, ih⟩
      · exact ih

/-- C6: the video decode loop closes its queue exactly once, as its last
action, on every run; the audio decode loop never closes its queue, on any
run, and the queue is closed by `AudioDecoder.Cleanup` instead. -/
theorem audio_queue_not_closed_by_decode_loop :
    (∀ (videoStream : Int) (steps : List (ReadStep Nat)),
      ∃ evs, DecodeFrames videoStream steps = evs ++ [QEvent.close] ∧ QEvent.close ∉ evs) ∧
    (∀ (audioStream : Int) (packets : List (Packet Nat)),
      QEvent.close ∉ ProcessAudioFrame audioStream packets) ∧
    ProcessAudioFrame 1 ([] : List (Packet Nat)) = [] ∧
    (∀ a : AudioDecoder, a.audioQueueClosed = false →
      ∃ a' log, AudioDecoder.Cleanup a = Outcome.returned (a', log) ∧
        a'.audioQueueClosed = true) :=
  ⟨fun videoStream steps => ⟨decodeLoop videoStream steps, rfl,
      close_not_mem_decodeLoop videoStream steps⟩,
   fun audioStream packets => close_not_mem_ProcessAudioFrame audioStream packets,
   rfl,
   fun a ha => ⟨_, _, by unfold AudioDecoder.Cleanup; rw [ha]; rfl, rfl⟩⟩

/-- C9: a packet whose submission fails is skipped in both loops; but when
the retrieval after an accepted packet fails with `-22`, both loops still
convert and enqueue the unit found in the frame. -/
theorem failed_retrieval_is_enqueued :
    ProcessAudioFrame 0 [rejectedPacket] = [] ∧
    DecodeFrames 0 [ReadStep.packet rejectedPacket] = [QEvent.close] ∧
    ProcessAudioFrame 0 [failingPacket] = [QEvent.enqueue 7] ∧
    DecodeFrames 0 [ReadStep.packet failingPacket] = [QEvent.enqueue 7, QEvent.close] := by
  decide

/-! ## C8, C10: cleanup -/

/-- C8: on a session that was initialized, started and cleaned up once, a
second `Cleanup` panics for `AudioDecoder` (close of the closed queue) and
blocks forever for `VideoDecoder` (nobody receives from `quit`); and the
releases of `VideoDecoder.Cleanup`, run again, free the scratch buffer a
second time, because `buffer` is not reset to nil. -/
theorem second_Cleanup_fails :
    (∃ a0 a log, AudioDecoder.Initialize okEnv NewAudioDecoder = Outcome.returned (none, a0) ∧
        AudioDecoder.Cleanup a0 = Outcome.returned (a, log) ∧
        AudioDecoder.Cleanup a = Outcome.panicked) ∧
    (∃ v0 v log, VideoDecoder.Initialize okEnv NewVideoDecoder = Outcome.returned (none, v0) ∧
        VideoDecoder.Cleanup (VideoDecoder.Start v0) = Outcome.returned (v, log) ∧
        FreeCall.av_free 7 ∈ log ∧
        VideoDecoder.Cleanup v = Outcome.blocked ∧
        (VideoDecoder.release v).2 = [FreeCall.av_free 7]) :=
  ⟨⟨_, _, _, rfl, rfl, by decide⟩, ⟨_, _, _, rfl, rfl, by decide, by decide, by decide⟩⟩

/-- C10: `AudioDecoder.Cleanup` releases frame, codec context, container in
that order; `VideoDecoder.Cleanup` releases the codec context, then the
container, and only then the two frames and the scratch buffer. -/
theorem video_Cleanup_frees_container_before_frames :
    AudioDecoder.Initialize okEnv NewAudioDecoder
      = Outcome.returned
          (none,
           { formatContext := some 1, audioContext := some 3, audioFrame := some 4,
             audioStream := 1, audioQueueClosed := false, otoCtx := some 8,
             audioBufferSize := 8192 }) ∧
    AudioDecoder.Cleanup
        { formatContext := some 1, audioContext := some 3, audioFrame := some 4,
          audioStream := 1, audioQueueClosed := false, otoCtx := some 8,
          audioBufferSize := 8192 }
      = Outcome.returned
          ({ formatContext := none, audioContext := none, audioFrame := none, audioStream := 1,
             audioQueueClosed := true, otoCtx := some 8, audioBufferSize := 8192 },
           [FreeCall.av_frame_free 4, FreeCall.avcodec_free_context 3,
            FreeCall.avformat_close_input 1]) ∧
    VideoDecoder.Initialize okEnv NewVideoDecoder
      = Outcome.returned
          (none,
           { formatContext := some 1, codecContext := some 3, swsContext := some 6,
             frame := some 4, frameRGB := some 5, buffer := some 7, videoStream := 0,
             frameBufferClosed := false, decoding := false, targetFPS := 24 }) ∧
    VideoDecoder.Cleanup
        (VideoDecoder.Start
          { formatContext := some 1, codecContext := some 3, swsContext := some 6,
            frame := some 4, frameRGB := some 5, buffer := some 7, videoStream := 0,
            frameBufferClosed := false, decoding := false, targetFPS := 24 })
      = Outcome.returned
          ({ formatContext := none, codecContext := none, swsContext := some 6, frame := none,
             frameRGB := none, buffer := some 7, videoStream := 0, frameBufferClosed := false,
             decoding := false, targetFPS := 24 },
           [FreeCall.avcodec_free_context 3, FreeCall.avformat_close_input 1,
            FreeCall.av_frame_free 4, FreeCall.av_frame_free 5, FreeCall.av_free 7]) := by
  decide

end SimpleVideoPlayer
